import Mathlib

/-!
Verification development for the `airtable-data-logger` repository.

The subject of the claims is the SQLite storage adapter
(`src/sql_interface.py`, class `SqliteInterface`).  This file gives a
shallow embedding of that adapter: a store is a finite association of
table names to tables, a table is an ordered schema (column name and
declared type), a flag recording whether the `id` column carries a
uniqueness constraint, and a list of positional rows.  Each public method
of `SqliteInterface` is translated into a pure Lean function over this
state, returning `Except Err` values in place of raised Python
exceptions; the SQL statements the methods build are interpreted by the
SQLite semantics relevant to them (insert alignment by column name,
`INSERT OR IGNORE`, `INSERT .. ON CONFLICT(id) DO UPDATE SET
col=excluded.col`, prepare-time statement validation).

Modelling conventions:
* `Value.null` is the SQL NULL; as in SQLite, a NULL `id` never violates
  the uniqueness constraint, so such rows always insert.
* `Table.idUnique` records whether the table was created with a UNIQUE
  constraint (or primary key) on its `id` column.  The adapter never
  creates such a constraint itself (pandas `to_sql` does not), so tables
  created through `write_table` carry `idUnique = false`.
* Statement preparation errors (unknown column in an insert column list,
  an `ON CONFLICT` clause that matches no uniqueness constraint, an empty
  column list) are raised by `sqlite3` when the statement is prepared,
  before any parameter row is consumed; the model checks them before the
  batch fold, mirroring `cursor.executemany`.
-/

deriving instance DecidableEq for Except

namespace AirtableLogger

/-- A SQLite storage cell: NULL, an integer, or a text value. -/
inductive Value where
  | null : Value
  | int (n : Int) : Value
  | str (s : String) : Value
deriving DecidableEq, Repr

/-- A Python value as passed in the `data` dict of `add_row`: the model
keeps the two shapes the claims need, strings and non-strings. -/
inductive PyVal where
  | str (s : String) : PyVal
  | int (n : Int) : PyVal
deriving DecidableEq, Repr

/-- Whether a Python value is a string (`','.join` only accepts strings). -/
def PyVal.isStr : PyVal → Bool
  | .str _ => true
  | .int _ => false

/-- A schema entry: column name and declared type tag. -/
structure Column where
  name : String
  ctype : String
deriving DecidableEq, Repr

/-- A table: ordered schema, whether `id` carries a uniqueness
constraint, and the stored rows (positional, aligned with the schema). -/
structure Table where
  schema : List Column
  idUnique : Bool
  rows : List (List Value)
deriving DecidableEq, Repr

/-- A `pandas.DataFrame` as the adapter consumes it: named columns and
positional rows. -/
structure Frame where
  cols : List Column
  rows : List (List Value)
deriving DecidableEq, Repr

/-- The error taxonomy of the spec, as surfaced by the Python code
(`ValueError` carrying "does not exist" is NotFoundError, `to_sql`'s
exists-error is AlreadyExistsError, the sqlite operational errors keep
their cause). -/
inductive Err where
  | notFound : Err
  | alreadyExists : Err
  | constraint : Err
  | typeError : Err
  | duplicateColumn : Err
  | noSuchColumn : Err
  | badSql : Err
deriving DecidableEq, Repr

/-- The `if_exists` conflict policy of `write_table`. -/
inductive IfExists where
  | fail : IfExists
  | replace : IfExists
  | append : IfExists
deriving DecidableEq, Repr

/-- The database: an association of table names to tables, names
case-sensitive and unique (first binding wins). -/
abbrev Store := List (String × Table)

/-- Look a table up by name (the `sqlite_master` query of
`_check_table_exists`, together with the table it denotes). -/
def findTable : Store → String → Option Table
  | [], _ => Option.none
  | (m, t) :: rest, n => if m = n then some t else findTable rest n

/-- Replace the binding of `n` (or append a fresh one): the effect of a
statement that rewrites table `n`. -/
def setTable : Store → String → Table → Store
  | [], n, t => [(n, t)]
  | (m, u) :: rest, n, t => if m = n then (n, t) :: rest else (m, u) :: setTable rest n t

/-- `SqliteInterface._check_table_exists`. -/
def check_table_exists (s : Store) (name : String) : Bool :=
  (findTable s name).isSome

/-- The names of a schema's columns, in order. -/
def colNames (sch : List Column) : List String :=
  sch.map (fun c => c.name)

/-- First-match association lookup of a column's incoming value; absent
columns read as SQL NULL. -/
def assocGet : List (String × Value) → String → Value
  | [], _ => Value.null
  | (k, v) :: rest, c => if k = c then v else assocGet rest c

/-- The cell of a positional row at the first schema column named `c`
(NULL when the column or the cell is missing). -/
def cellOf : List Column → List Value → String → Value
  | [], _, _ => Value.null
  | _ :: _, [], _ => Value.null
  | col :: sch, x :: r, c => if col.name = c then x else cellOf sch r c

/-- The row a SQL `INSERT (cols) VALUES (vals)` materialises: listed
columns get the incoming value, every other column defaults to NULL. -/
def mkRow (pairs : List (String × Value)) (sch : List Column) : List Value :=
  sch.map (fun col => assocGet pairs col.name)

/-- `UPDATE SET c = excluded.c, ...` over the columns in `ucols`: each
listed schema position is rewritten to the incoming value, all other
cells stay. -/
def applyUpdate (ucols : List String) (pairs : List (String × Value)) :
    List Column → List Value → List Value
  | _, [] => []
  | [], r => r
  | col :: sch, x :: r =>
      (if col.name ∈ ucols then assocGet pairs col.name else x) ::
        applyUpdate ucols pairs sch r

/-- Rewrite the first list element satisfying `p` by `f` (a keyed UPDATE
against a uniquely-constrained key touches exactly that row). -/
def updateFirst {α : Type} (p : α → Bool) (f : α → α) : List α → List α
  | [] => []
  | x :: xs => if p x then f x :: xs else x :: updateFirst p f xs

/-- The `id` value a batch row carries, given the batch's column list. -/
def rowId (bc : List String) (bv : List Value) : Value :=
  assocGet (bc.zip bv) "id"

/-- One `executemany` step of `upsert_batch`'s statement on one parameter
row: a conflict arises exactly when `id` is uniquely constrained and the
incoming non-NULL `id` already occurs; `INSERT OR IGNORE` then skips the
row and the `ON CONFLICT(id) DO UPDATE` form rewrites every non-`id`
batch column of the conflicting row; otherwise the row is inserted. -/
def upsertStep (sch : List Column) (idU : Bool) (bc : List String) (ign : Bool)
    (rows : List (List Value)) (bv : List Value) : List (List Value) :=
  let pairs := bc.zip bv
  let v := assocGet pairs "id"
  if idU = true ∧ v ≠ Value.null ∧ (∃ r ∈ rows, cellOf sch r "id" = v) then
    if ign then rows
    else updateFirst (fun r => decide (cellOf sch r "id" = v))
      (fun r => applyUpdate (bc.filter (fun c => c ≠ "id")) pairs sch r) rows
  else rows ++ [mkRow pairs sch]

/-- `SqliteInterface.upsert_batch`: existence check, then one batched
statement — `INSERT OR IGNORE` when `id` is the only batch column, else
`INSERT .. ON CONFLICT(id) DO UPDATE SET col=excluded.col` — applied to
the parameter rows in batch order.  Statement preparation rejects an
empty column list, a batch column the table lacks, and an `ON
CONFLICT(id)` clause when `id` carries no uniqueness constraint. -/
def upsert_batch (s : Store) (name : String) (data : Frame) : Except Err Store :=
  match findTable s name with
  | Option.none => .error Err.notFound
  | some t =>
    let bc := colNames data.cols
    if bc = [] then .error Err.badSql
    else if ¬ (∀ c ∈ bc, c ∈ colNames t.schema) then .error Err.noSuchColumn
    else if bc.filter (fun c => c ≠ "id") ≠ [] ∧ t.idUnique = false then
      .error Err.constraint
    else
      .ok (setTable s name { t with
        rows := data.rows.foldl
          (upsertStep t.schema t.idUnique bc ((bc.filter (fun c => c ≠ "id")).isEmpty))
          t.rows })

/-- `SqliteInterface.read_table`: existence check, then `SELECT *`. -/
def read_table (s : Store) (name : String) : Except Err Frame :=
  match findTable s name with
  | Option.none => .error Err.notFound
  | some t => .ok ⟨t.schema, t.rows⟩

/-- `SqliteInterface.write_table`, i.e. `DataFrame.to_sql`: `fail` errors
on a pre-existing table, `replace` rebuilds the table from the frame,
`append` adds the frame's rows behind the existing ones (the frame's
columns must all exist); an absent table is created under every policy.
`to_sql` never declares a uniqueness constraint on `id`. -/
def write_table (s : Store) (name : String) (data : Frame) (mode : IfExists) :
    Except Err Store :=
  match findTable s name, mode with
  | Option.none, _ => .ok (setTable s name ⟨data.cols, false, data.rows⟩)
  | some _, .fail => .error Err.alreadyExists
  | some _, .replace => .ok (setTable s name ⟨data.cols, false, data.rows⟩)
  | some t, .append =>
    if ∀ c ∈ colNames data.cols, c ∈ colNames t.schema then
      .ok (setTable s name { t with
        rows := t.rows ++ data.rows.map (fun r => mkRow ((colNames data.cols).zip r) t.schema) })
    else .error Err.noSuchColumn

/-- The numeric value of a decimal digit character. -/
def charDigit : Char → Option Nat :=
  fun c => if '0' ≤ c ∧ c ≤ '9' then some (c.toNat - 48) else Option.none

/-- Accumulate a decimal numeral. -/
def natOfDigitsAux (acc : Nat) : List Char → Option Nat
  | [] => some acc
  | c :: cs =>
    match charDigit c with
    | some d => natOfDigitsAux (10 * acc + d) cs
    | Option.none => Option.none

/-- Parse a non-empty all-digit character list. -/
def natOfDigits (l : List Char) : Option Nat :=
  if l = [] then Option.none else natOfDigitsAux 0 l

/-- Parse an optionally-signed decimal numeral. -/
def intOfChars : List Char → Option Int
  | '-' :: cs => (natOfDigits cs).map (fun n => -(n : Int))
  | cs => (natOfDigits cs).map (fun n => (n : Int))

/-- How SQLite reads a token spliced into a `VALUES (...)` list: a
single-quoted token is a text literal, a decimal numeral is an integer
literal, and any other bare token is an identifier — it does not denote
the token's own text (in a `VALUES` list it fails to resolve). -/
def parseSqlValue (s : String) : Option Value :=
  match s.data with
  | [] => Option.none
  | c :: cs =>
    if c = '\'' ∧ cs ≠ [] ∧ cs.getLast? = some '\'' then
      some (Value.str (String.mk cs.dropLast))
    else (intOfChars (c :: cs)).map Value.int

/-- `','.join` over one Python value: succeeds only on a string
(`TypeError` otherwise). -/
def joinable : PyVal → Option String
  | .str s => some s
  | .int _ => Option.none

/-- Apply a fallible function across a list, failing as soon as one
element fails. -/
def mapOption {α β : Type} (f : α → Option β) : List α → Option (List β)
  | [] => some []
  | a :: l =>
    match f a with
    | Option.none => Option.none
    | some b => (mapOption f l).map (fun bs => b :: bs)

/-- `SqliteInterface.add_row`: existence check, then the INSERT statement
is built by string concatenation — `','.join(data.values())` raises
`TypeError` on any non-string value before the database is reached; on
execution every key must name a column and every spliced value token is
read by `parseSqlValue` (a bare token resolves no column in a `VALUES`
list and errors). -/
def add_row (s : Store) (name : String) (data : List (String × PyVal)) :
    Except Err Store :=
  match findTable s name with
  | Option.none => .error Err.notFound
  | some t =>
    match mapOption joinable (data.map (fun p => p.2)) with
    | Option.none => .error Err.typeError
    | some vals =>
      if ∀ k ∈ data.map (fun p => p.1), k ∈ colNames t.schema then
        match mapOption parseSqlValue vals with
        | Option.none => .error Err.noSuchColumn
        | some vs =>
          .ok (setTable s name { t with
            rows := t.rows ++ [mkRow ((data.map (fun p => p.1)).zip vs) t.schema] })
      else .error Err.noSuchColumn

/-- `SqliteInterface.add_column`: existence check, then
`ALTER TABLE .. ADD COLUMN` — a duplicate column name is rejected by
SQLite, otherwise the column is appended and existing rows read NULL in
it. -/
def add_column (s : Store) (name : String) (col ctyp : String) :
    Except Err Store :=
  match findTable s name with
  | Option.none => .error Err.notFound
  | some t =>
    if col ∈ colNames t.schema then .error Err.duplicateColumn
    else
      .ok (setTable s name { t with
        schema := t.schema ++ [⟨col, ctyp⟩],
        rows := t.rows.map (fun r => r ++ [Value.null]) })

/-- `SqliteInterface._check_columns`: existence check, then the PRAGMA
read reporting per-column presence, aligned with the request. -/
def check_columns (s : Store) (name : String) (cols : List String) :
    Except Err (List Bool) :=
  match findTable s name with
  | Option.none => .error Err.notFound
  | some t => .ok (cols.map (fun c => decide (c ∈ colNames t.schema)))

/-- Outcome of a reconciliation run: the store as mutated so far (each
`add_column` commits on its own), the number of `add_column` migrations
issued, and the failure that stopped the run, if any. -/
structure MigrateResult where
  store : Store
  migrations : Nat
  failure : Option Err
deriving DecidableEq, Repr

/-- The migration loop of `check_and_add_columns`: walk the
`zip(columns, column_types, existing_columns)` triples, adding each
column whose up-front existence flag was false; a failing `add_column`
stops the loop with the store keeping every earlier addition. -/
def runMigrations (name : String) : Store → Nat → List ((String × String) × Bool) →
    MigrateResult
  | s, n, [] => ⟨s, n, Option.none⟩
  | s, n, ((c, ty), ex) :: rest =>
    if ex then runMigrations name s n rest
    else
      match add_column s name c ty with
      | .error e => ⟨s, n, some e⟩
      | .ok s' => runMigrations name s' (n + 1) rest

/-- `SqliteInterface.check_and_add_columns` (the spec's `reconcile`):
existence check, one up-front `_check_columns` read, then the migration
loop over the zipped triples (`zip` truncates to the shorter list). -/
def check_and_add_columns (s : Store) (name : String) (cols tys : List String) :
    MigrateResult :=
  match findTable s name with
  | Option.none => ⟨s, 0, some Err.notFound⟩
  | some t =>
    runMigrations name s 0
      ((cols.zip tys).zip (cols.map (fun c => decide (c ∈ colNames t.schema))))

/-! ### Spec-side reference definitions

The following definitions transcribe the spec's description of the upsert
merge (spec §4.5 and the "Upsert merge" testable property): incoming rows
whose `id` already occurs rewrite every non-identity column of that row,
the last batch occurrence winning; rows with a fresh `id` are inserted at
their first occurrence.  They exist to be compared with the fold the code
performs, not as a second transcription of the code. -/

/-- The last batch row carrying the (non-NULL) id `v` — "last value in
the batch wins".  A NULL `v` matches nothing. -/
def lastWins (bc : List String) (v : Value) : List (List Value) → Option (List Value)
  | [] => Option.none
  | bv :: rest =>
    match lastWins bc v rest with
    | some w => some w
    | Option.none => if v ≠ Value.null ∧ rowId bc bv = v then some bv else Option.none

/-- The batch rows that insert rather than update: the first occurrence
of each id not already in `seen`, NULL-id rows always inserting. -/
def firstOccs (bc : List String) : List Value → List (List Value) → List (List Value)
  | _, [] => []
  | seen, bv :: rest =>
    if rowId bc bv = Value.null then bv :: firstOccs bc seen rest
    else if rowId bc bv ∈ seen then firstOccs bc seen rest
    else bv :: firstOccs bc (rowId bc bv :: seen) rest

/-- The `id` values of a table's rows, in row order. -/
def tableIds (sch : List Column) (rows : List (List Value)) : List Value :=
  rows.map (fun r => cellOf sch r "id")

/-- Spec: each pre-existing row whose `id` occurs in the batch has every
non-identity batch column rewritten to the last occurrence's value. -/
def specUpdated (sch : List Column) (bc : List String) (brs rows : List (List Value)) :
    List (List Value) :=
  rows.map (fun r =>
    match lastWins bc (cellOf sch r "id") brs with
    | some bv => applyUpdate (bc.filter (fun c => c ≠ "id")) (bc.zip bv) sch r
    | Option.none => r)

/-- Spec: each batch row whose `id` is not yet in the table inserts, at
its first occurrence, with the last occurrence's values. -/
def specNews (sch : List Column) (bc : List String) (brs rows : List (List Value)) :
    List (List Value) :=
  (firstOccs bc (tableIds sch rows) brs).map
    (fun bv => mkRow (bc.zip ((lastWins bc (rowId bc bv) brs).getD bv)) sch)

/-- Spec: the merged table — updated pre-existing rows followed by the
fresh inserts. -/
def upsertSpecRows (sch : List Column) (bc : List String) (brs rows : List (List Value)) :
    List (List Value) :=
  specUpdated sch bc brs rows ++ specNews sch bc brs rows

/-- What a real uniqueness constraint on `id` guarantees about stored
rows: no two rows share a non-NULL `id` value. -/
abbrev IdsOk (l : List Value) : Prop :=
  l.Pairwise (fun a b => a = b → a = Value.null)

/-! ### Concrete instances used by witnesses and counterexamples -/

/-- The spec's example table `T`: `{id:1,name:"Alice"}, {id:2,name:"Bob"}`
with a uniqueness constraint on `id`. -/
def egTable : Table :=
  ⟨[⟨"id", "INTEGER"⟩, ⟨"name", "TEXT"⟩], true,
   [[Value.int 1, Value.str "Alice"], [Value.int 2, Value.str "Bob"]]⟩

def egStore : Store := [("T", egTable)]

/-- The spec's example batch `{id:2,name:"Bob2"}, {id:3,name:"Carol"}`. -/
def egFrame : Frame :=
  ⟨[⟨"id", "INTEGER"⟩, ⟨"name", "TEXT"⟩],
   [[Value.int 2, Value.str "Bob2"], [Value.int 3, Value.str "Carol"]]⟩

/-- A table whose `id` is uniquely constrained, initially empty. -/
def nullIdTable : Table := ⟨[⟨"id", "INTEGER"⟩, ⟨"name", "TEXT"⟩], true, []⟩

def nullIdStore : Store := [("t", nullIdTable)]

/-- A batch whose single row carries a NULL `id`. -/
def nullIdFrame : Frame :=
  ⟨[⟨"id", "INTEGER"⟩, ⟨"name", "TEXT"⟩], [[Value.null, Value.str "x"]]⟩

/-- A table without any uniqueness constraint on `id`, holding id 1. -/
def noUniqueTable : Table := ⟨[⟨"id", "INTEGER"⟩], false, [[Value.int 1]]⟩

def noUniqueStore : Store := [("t", noUniqueTable)]

/-- An id-only batch repeating the already-stored id 1. -/
def idOnlyFrame : Frame := ⟨[⟨"id", "INTEGER"⟩], [[Value.int 1]]⟩

/-- A uniquely-constrained table already holding a NULL-id row. -/
def nullRowTable : Table := ⟨[⟨"id", "INTEGER"⟩], true, [[Value.null]]⟩

def nullRowStore : Store := [("u", nullRowTable)]

/-- An id-only batch whose row carries a NULL id. -/
def nullOnlyFrame : Frame := ⟨[⟨"id", "INTEGER"⟩], [[Value.null]]⟩

/-- A uniquely-constrained id-only table holding id 1, for the C6 witness. -/
def idOnlyStore : Store := [("t", ⟨[⟨"id", "INTEGER"⟩], true, [[Value.int 1]]⟩)]

/-- An id-only batch carrying ids 1 (stored) and 2 (new). -/
def idOnlyBatch : Frame := ⟨[⟨"id", "INTEGER"⟩], [[Value.int 1], [Value.int 2]]⟩

/-- A two-column table without a uniqueness constraint on `id`. -/
def noUniqueWideTable : Table :=
  ⟨[⟨"id", "INTEGER"⟩, ⟨"name", "TEXT"⟩], false, [[Value.int 1, Value.str "a"]]⟩

def noUniqueWideStore : Store := [("t", noUniqueWideTable)]

/-- An empty batch (zero rows) over columns `id, name`. -/
def emptyFrame : Frame := ⟨[⟨"id", "INTEGER"⟩, ⟨"name", "TEXT"⟩], []⟩

/-- A store for the `add_row` witnesses: table `t(id, name)`. -/
def rowStore : Store := [("t", ⟨[⟨"id", "INTEGER"⟩, ⟨"name", "TEXT"⟩], false, []⟩)]

/-- Surround a string with single quotes, as a SQL text literal is. -/
def sqlQuoted (s : String) : String :=
  String.singleton '\'' ++ s ++ String.singleton '\''

/-- First dataset for the `write_table` fail-policy witness. -/
def egFrameD1 : Frame := ⟨[⟨"id", "INTEGER"⟩], [[Value.int 1]]⟩

/-- Second dataset for the `write_table` fail-policy witness. -/
def egFrameD2 : Frame := ⟨[⟨"id", "INTEGER"⟩], [[Value.int 2]]⟩

/-- The spec example's store after the upsert: `{id:1,name:"Alice"},
{id:2,name:"Bob2"}, {id:3,name:"Carol"}`. -/
def egStoreAfter : Store :=
  [("T", ⟨[⟨"id", "INTEGER"⟩, ⟨"name", "TEXT"⟩], true,
    [[Value.int 1, Value.str "Alice"], [Value.int 2, Value.str "Bob2"],
     [Value.int 3, Value.str "Carol"]]⟩)]

/-- `nullIdStore` after one upsert of the NULL-id batch. -/
def nullIdStore1 : Store :=
  [("t", ⟨[⟨"id", "INTEGER"⟩, ⟨"name", "TEXT"⟩], true,
    [[Value.null, Value.str "x"]]⟩)]

/-- `nullIdStore` after two upserts of the NULL-id batch: the row
doubled. -/
def nullIdStore2 : Store :=
  [("t", ⟨[⟨"id", "INTEGER"⟩, ⟨"name", "TEXT"⟩], true,
    [[Value.null, Value.str "x"], [Value.null, Value.str "x"]]⟩)]

/-- Store for the reconcile witness: table `t` with single column `a`. -/
def recStore : Store := [("t", ⟨[⟨"a", "TEXT"⟩], false, []⟩)]

/-- `recStore` after reconciling columns `a, b`: column `b` added. -/
def recStoreAfter : Store := [("t", ⟨[⟨"a", "TEXT"⟩, ⟨"b", "INTEGER"⟩], false, []⟩)]

/-! ### Basic lemmas about the store -/

theorem findTable_setTable_self (s : Store) (n : String) (t : Table) :
    findTable (setTable s n t) n = some t := by
  induction s with
  | nil => simp [setTable, findTable]
  | cons p rest ih =>
    obtain ⟨m, u⟩ := p
    by_cases hm : m = n
    · simp [setTable, hm, findTable]
    · simp [setTable, hm, findTable, ih]

theorem setTable_of_findTable (s : Store) (n : String) (t : Table)
    (h : findTable s n = some t) : setTable s n t = s := by
  induction s with
  | nil => simp [findTable] at h
  | cons p rest ih =>
    obtain ⟨m, u⟩ := p
    by_cases hm : m = n
    · subst hm
      have hu : u = t := by simpa [findTable] using h
      simp [setTable, hu]
    · simp only [findTable, if_neg hm] at h
      simp [setTable, hm, ih h]

theorem setTable_setTable (s : Store) (n : String) (t t' : Table) :
    setTable (setTable s n t) n t' = setTable s n t' := by
  induction s with
  | nil => simp [setTable]
  | cons p rest ih =>
    obtain ⟨m, u⟩ := p
    by_cases hm : m = n
    · simp [setTable, hm]
    · simp [setTable, hm, ih]

/-! ### zip alignment lemmas -/

theorem zipTakeLeft {α β : Type} :
    ∀ (l1 : List α) (l2 : List β), l1.zip l2 = (l1.take l2.length).zip l2
  | [], _ => by simp
  | _ :: _, [] => by simp
  | a :: l1, b :: l2 => by
    simp only [List.length_cons, List.take_succ_cons, List.zip_cons_cons]
    exact congrArg _ (zipTakeLeft l1 l2)

theorem zipZipMap {α β γ : Type} :
    ∀ (l1 : List α) (l2 : List β) (f : α → γ),
      (l1.zip l2).zip (l1.map f) = (l1.zip l2).map (fun p => (p, f p.1))
  | [], _, _ => by simp
  | _ :: _, [], _ => by simp
  | a :: l1, b :: l2, f => by
    simp only [List.zip_cons_cons, List.map_cons]
    exact congrArg _ (zipZipMap l1 l2 f)

/-! ### add_row helper -/

theorem mapOption_joinable_none :
    ∀ (l : List PyVal), (∃ x ∈ l, x.isStr = false) →
      mapOption joinable l = Option.none := by
  intro l
  induction l with
  | nil => rintro ⟨x, hx, -⟩; cases hx
  | cons a l ih =>
    rintro ⟨x, hx, hstr⟩
    rcases List.mem_cons.1 hx with rfl | hx'
    · cases x with
      | str s => simp [PyVal.isStr] at hstr
      | int n => simp [mapOption, joinable]
    · cases a with
      | str s => simp [mapOption, joinable, ih ⟨x, hx', hstr⟩]
      | int n => simp [mapOption, joinable]

/-! ### Migration lemmas -/

theorem add_column_ok (s : Store) (name c ty : String) (s' : Store)
    (h : add_column s name c ty = .ok s') :
    ∃ t, findTable s name = some t ∧ c ∉ colNames t.schema ∧
      s' = setTable s name { t with
        schema := t.schema ++ [⟨c, ty⟩],
        rows := t.rows.map (fun r => r ++ [Value.null]) } := by
  unfold add_column at h
  cases hf : findTable s name <;> rw [hf] at h
  · exact absurd h (by simp)
  · rename_i t
    by_cases hc : c ∈ colNames t.schema
    · simp [hc] at h
    · simp only [hc, if_neg, if_false, Except.ok.injEq, not_false_eq_true] at h
      exact ⟨t, rfl, hc, h.symm⟩

theorem runMigrations_ok (name : String) :
    ∀ (L : List ((String × String) × Bool)) (s : Store) (n : Nat) (t : Table)
      (res : MigrateResult),
      findTable s name = some t →
      runMigrations name s n L = res → res.failure = Option.none →
      ∃ t1, findTable res.store name = some t1 ∧
        (∀ x ∈ colNames t.schema, x ∈ colNames t1.schema) ∧
        (∀ e ∈ L, e.2 = false → e.1.1 ∈ colNames t1.schema) := by
  intro L
  induction L with
  | nil =>
    intro s n t res hf hrun _
    cases hrun
    exact ⟨t, hf, fun x hx => hx, by simp⟩
  | cons e L ih =>
    intro s n t res hf hrun hres
    obtain ⟨⟨c, ty⟩, ex⟩ := e
    by_cases hex : ex = true
    · simp only [runMigrations, hex, if_true] at hrun
      obtain ⟨t1, h1, h2, h3⟩ := ih s n t res hf hrun hres
      refine ⟨t1, h1, h2, ?_⟩
      intro e he hfalse
      rcases List.mem_cons.1 he with rfl | he'
      · simp [hex] at hfalse
      · exact h3 e he' hfalse
    · have hex' : ex = false := by simpa using hex
      simp only [runMigrations, hex', Bool.false_eq_true, if_false] at hrun
      cases hadd : add_column s name c ty with
      | error e' =>
        rw [hadd] at hrun
        cases hrun
        simp at hres
      | ok s' =>
        rw [hadd] at hrun
        obtain ⟨u, hfu, hcu, hs'⟩ := add_column_ok s name c ty s' hadd
        rw [hf] at hfu
        injection hfu with hfu
        subst hfu
        subst hs'
        have hf' := findTable_setTable_self s name { t with
          schema := t.schema ++ [⟨c, ty⟩],
          rows := t.rows.map (fun r => r ++ [Value.null]) }
        obtain ⟨t1, h1, h2, h3⟩ := ih _ (n + 1) _ res hf' hrun hres
        refine ⟨t1, h1, ?_, ?_⟩
        · intro x hx
          apply h2
          simp only [colNames, List.map_append, List.mem_append]
          exact Or.inl hx
        · intro e he hfalse
          rcases List.mem_cons.1 he with rfl | he'
          · apply h2
            simp [colNames]
          · exact h3 e he' hfalse

theorem runMigrations_allTrue (name : String) :
    ∀ (L : List ((String × String) × Bool)) (s : Store) (n : Nat),
      (∀ e ∈ L, e.2 = true) →
      runMigrations name s n L = ⟨s, n, Option.none⟩ := by
  intro L
  induction L with
  | nil => intro s n _; rfl
  | cons e L ih =>
    intro s n hall
    obtain ⟨⟨c, ty⟩, ex⟩ := e
    have : ex = true := hall _ (List.mem_cons_self _ _)
    simp only [runMigrations, this, if_true]
    exact ih s n (fun e he => hall e (List.mem_cons_of_mem _ he))

/-! ### Claim C2: operations on an absent table fail closed -/

/-- C2.  For every table name absent from the store, `read_table`,
`add_row`, `add_column`, `_check_columns` (the spec's
`has_columns`/`existing_columns`), `check_and_add_columns` (the spec's
`reconcile`) and `upsert_batch` all fail with NotFoundError before any
mutation, leaving the store unchanged; `write_table` is the sole
exception and creates the table. -/
theorem absent_table_fails_closed (s : Store) (name : String)
    (h : findTable s name = Option.none) :
    read_table s name = .error Err.notFound ∧
    (∀ data, add_row s name data = .error Err.notFound) ∧
    (∀ c ty, add_column s name c ty = .error Err.notFound) ∧
    (∀ cols, check_columns s name cols = .error Err.notFound) ∧
    (∀ cols tys, check_and_add_columns s name cols tys = ⟨s, 0, some Err.notFound⟩) ∧
    (∀ data, upsert_batch s name data = .error Err.notFound) ∧
    (∀ data mode, write_table s name data mode
      = .ok (setTable s name ⟨data.cols, false, data.rows⟩)) := by
  refine ⟨?_, ?_, ?_, ?_, ?_, ?_, ?_⟩ <;> intros <;>
    simp [read_table, add_row, add_column, check_columns, check_and_add_columns,
      upsert_batch, write_table, h]

/-- Witness for C2 at the empty store and name `missing`. -/
theorem absent_table_fails_closed_witness :
    read_table ([] : Store) "missing" = .error Err.notFound ∧
    upsert_batch ([] : Store) "missing" egFrame = .error Err.notFound := by
  have h := absent_table_fails_closed ([] : Store) "missing" rfl
  exact ⟨h.1, h.2.2.2.2.2.1 egFrame⟩

/-! ### Claim C5: write_table fail policy -/

/-- C5.  After `write_table(T, D1, fail)` succeeds on an absent `T`, a
second `write_table(T, D2, fail)` fails with AlreadyExistsError before
writing anything, and `T` still holds exactly `D1`. -/
theorem write_table_fail_atomic (s : Store) (name : String) (d1 d2 : Frame)
    (s1 : Store)
    (habs : findTable s name = Option.none)
    (h1 : write_table s name d1 .fail = .ok s1) :
    findTable s1 name = some ⟨d1.cols, false, d1.rows⟩ ∧
    write_table s1 name d2 .fail = .error Err.alreadyExists := by
  have hs1 : s1 = setTable s name ⟨d1.cols, false, d1.rows⟩ := by
    simp only [write_table, habs] at h1
    exact (Except.ok.injEq _ _ ▸ h1).symm
  have hft : findTable s1 name = some ⟨d1.cols, false, d1.rows⟩ := by
    rw [hs1]; exact findTable_setTable_self s name _
  exact ⟨hft, by simp [write_table, hft]⟩

/-- Witness for C5 at a concrete store and datasets. -/
theorem write_table_fail_atomic_witness :
    findTable (setTable ([] : Store) "T" ⟨egFrameD1.cols, false, egFrameD1.rows⟩) "T"
      = some ⟨egFrameD1.cols, false, egFrameD1.rows⟩ ∧
    write_table (setTable ([] : Store) "T" ⟨egFrameD1.cols, false, egFrameD1.rows⟩)
      "T" egFrameD2 .fail = .error Err.alreadyExists :=
  write_table_fail_atomic ([] : Store) "T" egFrameD1 egFrameD2 _ rfl rfl

/-! ### Claim C9: reconcile truncates to the shorter list -/

/-- C9.  `check_and_add_columns` pairs columns with types positionally
and truncates to the shorter list: its entire behaviour (store, migration
count, failure) equals that of the call restricted to the first
`column_types.length` columns, so trailing columns beyond the types list
are neither checked nor added and raise nothing. -/
theorem reconcile_truncates_to_types (s : Store) (name : String)
    (cols tys : List String) :
    check_and_add_columns s name cols tys
      = check_and_add_columns s name (cols.take tys.length) tys := by
  unfold check_and_add_columns
  cases hf : findTable s name
  · rfl
  · rename_i t
    dsimp only
    congr 1
    rw [zipZipMap, zipZipMap, ← zipTakeLeft]

/-! ### Claim C8: add_row splices values into the SQL text -/

/-- C8.  `add_row` builds its INSERT by string concatenation rather than
parameter binding: on an existing table, any non-string value makes
`','.join(data.values())` raise TypeError before the database is
reached; string values are read as SQL tokens, so the unquoted plain-text
value `Frank` does not insert as a literal (it resolves no column), while
the single-quoted spelling does insert the literal `Frank`. -/
theorem add_row_builds_sql_text :
    (∀ (s : Store) (name : String) (t : Table) (data : List (String × PyVal)),
        findTable s name = some t →
        (∃ p ∈ data, p.2.isStr = false) →
        add_row s name data = .error Err.typeError) ∧
    add_row rowStore "t" [("name", PyVal.str "Frank")] = .error Err.noSuchColumn ∧
    add_row rowStore "t" [("id", PyVal.str "6"), ("name", PyVal.str (sqlQuoted "Frank"))]
      = .ok [("t", ⟨[⟨"id", "INTEGER"⟩, ⟨"name", "TEXT"⟩], false,
          [[Value.int 6, Value.str "Frank"]]⟩)] := by
  refine ⟨?_, by decide, by decide⟩
  intro s name t data hf ⟨p, hp, hstr⟩
  unfold add_row
  rw [hf, mapOption_joinable_none (data.map (fun p => p.2))
    ⟨p.2, List.mem_map_of_mem _ hp, hstr⟩]

/-- Witness for C8: a non-string value yields the TypeError. -/
theorem add_row_builds_sql_text_witness :
    add_row rowStore "t" [("id", PyVal.int 6)] = .error Err.typeError :=
  add_row_builds_sql_text.1 rowStore "t"
    ⟨[⟨"id", "INTEGER"⟩, ⟨"name", "TEXT"⟩], false, []⟩
    [("id", PyVal.int 6)] rfl (by decide)

/-! ### Claim C3: reconcile is idempotent -/

/-- C3.  When `check_and_add_columns` succeeds, running it again with the
same columns and types leaves the store (hence the schema) exactly as
after the first run and issues zero `add_column` migrations. -/
theorem reconcile_idempotent (s : Store) (name : String) (cols tys : List String)
    (s1 : Store) (n1 : Nat)
    (_hlen : cols.length = tys.length)
    (h1 : check_and_add_columns s name cols tys = ⟨s1, n1, Option.none⟩) :
    check_and_add_columns s1 name cols tys = ⟨s1, 0, Option.none⟩ := by
  unfold check_and_add_columns at h1 ⊢
  cases hf : findTable s name <;> rw [hf] at h1
  · simp at h1
  · rename_i t
    obtain ⟨t1, hft1, hmono, hcov⟩ :=
      runMigrations_ok name _ s 0 t ⟨s1, n1, Option.none⟩ hf h1 rfl
    rw [hft1]
    apply runMigrations_allTrue
    intro e he
    rw [zipZipMap] at he
    obtain ⟨p, hp, rfl⟩ := List.mem_map.1 he
    simp only [decide_eq_true_eq]
    by_cases hin : p.1 ∈ colNames t.schema
    · exact hmono _ hin
    · have hpL : (p, decide (p.1 ∈ colNames t.schema)) ∈
          (cols.zip tys).zip (cols.map (fun c => decide (c ∈ colNames t.schema))) := by
        rw [zipZipMap]; exact List.mem_map_of_mem _ hp
      have := hcov _ hpL (by simp [hin])
      simpa using this

/-- Witness for C3 at a concrete reconciliation that adds one column. -/
theorem reconcile_idempotent_witness :
    check_and_add_columns recStoreAfter "t" ["a", "b"] ["TEXT", "INTEGER"]
      = ⟨recStoreAfter, 0, Option.none⟩ :=
  reconcile_idempotent recStore "t" ["a", "b"] ["TEXT", "INTEGER"]
    recStoreAfter 1 rfl (by decide)

/-! ### Row-level lemmas for the upsert analysis -/

theorem assocGet_cons (k : String) (v : Value) (rest : List (String × Value))
    (c : String) :
    assocGet ((k, v) :: rest) c = if k = c then v else assocGet rest c := rfl

theorem mkRow_cons (pairs : List (String × Value)) (col : Column)
    (sch : List Column) :
    mkRow pairs (col :: sch) = assocGet pairs col.name :: mkRow pairs sch := rfl

theorem applyUpdate_cons (ucols : List String) (pairs : List (String × Value))
    (col : Column) (sch : List Column) (x : Value) (r : List Value) :
    applyUpdate ucols pairs (col :: sch) (x :: r)
      = (if col.name ∈ ucols then assocGet pairs col.name else x)
          :: applyUpdate ucols pairs sch r := rfl

theorem cellOf_cons (col : Column) (sch : List Column) (x : Value)
    (r : List Value) (c : String) :
    cellOf (col :: sch) (x :: r) c = if col.name = c then x else cellOf sch r c := rfl

theorem colNames_cons (col : Column) (sch : List Column) :
    colNames (col :: sch) = col.name :: colNames sch := rfl

theorem updateFirst_cons {α : Type} (p : α → Bool) (f : α → α) (x : α)
    (xs : List α) :
    updateFirst p f (x :: xs)
      = if p x then f x :: xs else x :: updateFirst p f xs := rfl

theorem assocGet_zip_not_mem (c : String) :
    ∀ (bc : List String) (l : List Value), c ∉ bc →
      assocGet (bc.zip l) c = Value.null := by
  intro bc
  induction bc with
  | nil => intro l _; rfl
  | cons b bc ih =>
    intro l hc
    cases l with
    | nil => rfl
    | cons x l =>
      have hb : b ≠ c := fun h => hc (h ▸ List.mem_cons_self _ _)
      rw [List.zip_cons_cons, assocGet_cons, if_neg hb]
      exact ih l (fun h => hc (List.mem_cons_of_mem _ h))

theorem cellOf_applyUpdate (ucols : List String) (pairs : List (String × Value))
    (c : String) (hc : c ∉ ucols) :
    ∀ (sch : List Column) (r : List Value),
      cellOf sch (applyUpdate ucols pairs sch r) c = cellOf sch r c := by
  intro sch
  induction sch with
  | nil => intro r; cases r <;> rfl
  | cons col sch ih =>
    intro r
    cases r with
    | nil => rfl
    | cons x r =>
      rw [applyUpdate_cons, cellOf_cons, cellOf_cons]
      by_cases hcol : col.name = c
      · have hnu : col.name ∉ ucols := hcol ▸ hc
        rw [if_pos hcol, if_pos hcol, if_neg hnu]
      · rw [if_neg hcol, if_neg hcol, ih r]

theorem cellOf_mkRow (pairs : List (String × Value)) (c : String) :
    ∀ (sch : List Column), c ∈ colNames sch →
      cellOf sch (mkRow pairs sch) c = assocGet pairs c := by
  intro sch
  induction sch with
  | nil => intro hc; cases hc
  | cons col sch ih =>
    intro hc
    rw [mkRow_cons, cellOf_cons]
    by_cases hcol : col.name = c
    · rw [if_pos hcol, hcol]
    · rw [if_neg hcol]
      refine ih ?_
      rw [colNames_cons] at hc
      rcases List.mem_cons.1 hc with h | h
      · exact absurd h.symm hcol
      · exact h

theorem applyUpdate_applyUpdate (ucols : List String)
    (p1 p2 : List (String × Value)) :
    ∀ (sch : List Column) (r : List Value),
      applyUpdate ucols p2 sch (applyUpdate ucols p1 sch r)
        = applyUpdate ucols p2 sch r := by
  intro sch
  induction sch with
  | nil => intro r; cases r <;> rfl
  | cons col sch ih =>
    intro r
    cases r with
    | nil => rfl
    | cons x r =>
      by_cases hcol : col.name ∈ ucols
      · simp only [applyUpdate_cons, if_pos hcol, ih r]
      · simp only [applyUpdate_cons, if_neg hcol, ih r]

theorem applyUpdate_mkRow (bc : List String) (w bv : List Value)
    (hidv : assocGet (bc.zip w) "id" = assocGet (bc.zip bv) "id") :
    ∀ (sch : List Column),
      applyUpdate (bc.filter (fun c => c ≠ "id")) (bc.zip bv) sch
          (mkRow (bc.zip w) sch)
        = mkRow (bc.zip bv) sch := by
  intro sch
  induction sch with
  | nil => rfl
  | cons col sch ih =>
    rw [mkRow_cons, mkRow_cons, applyUpdate_cons]
    by_cases hu : col.name ∈ bc.filter (fun c => c ≠ "id")
    · rw [if_pos hu, ih]
    · have hval : assocGet (bc.zip w) col.name = assocGet (bc.zip bv) col.name := by
        by_cases hcid : col.name = "id"
        · rw [hcid]; exact hidv
        · have hnb : col.name ∉ bc := by
            intro hmem
            exact hu (List.mem_filter.2 ⟨hmem, by simp [hcid]⟩)
          rw [assocGet_zip_not_mem _ _ _ hnb, assocGet_zip_not_mem _ _ _ hnb]
      rw [if_neg hu, hval, ih]

theorem updateFirst_of_forall_false {α : Type} (p : α → Bool) (f : α → α) :
    ∀ (l : List α), (∀ a ∈ l, p a = false) → updateFirst p f l = l := by
  intro l
  induction l with
  | nil => intro _; rfl
  | cons a l ih =>
    intro h
    have ha := h a (List.mem_cons_self _ _)
    simp [updateFirst, ha, ih (fun b hb => h b (List.mem_cons_of_mem _ hb))]

theorem updateFirst_append_false {α : Type} (p : α → Bool) (f : α → α) :
    ∀ (xs ys : List α), (∀ a ∈ xs, p a = false) →
      updateFirst p f (xs ++ ys) = xs ++ updateFirst p f ys := by
  intro xs
  induction xs with
  | nil => intro ys _; rfl
  | cons a xs ih =>
    intro ys h
    have ha := h a (List.mem_cons_self _ _)
    simp [updateFirst, ha, ih ys (fun b hb => h b (List.mem_cons_of_mem _ hb))]

theorem updateFirst_append_true {α : Type} (p : α → Bool) (f : α → α) :
    ∀ (xs ys : List α), xs.any p = true →
      updateFirst p f (xs ++ ys) = updateFirst p f xs ++ ys := by
  intro xs
  induction xs with
  | nil => intro ys h; simp at h
  | cons a xs ih =>
    intro ys h
    by_cases ha : p a = true
    · simp [updateFirst, ha]
    · have ha' : p a = false := by simpa using ha
      have hxs : xs.any p = true := by simpa [ha'] using h
      simp [updateFirst, ha', ih ys hxs]

theorem updateFirst_map_key {α : Type} (sch : List Column) (v : Value)
    (hv : v ≠ Value.null) (key : α → Value) (g : α → List Value)
    (f : List Value → List Value) :
    ∀ (xs : List α), IdsOk (xs.map key) →
      (∀ a ∈ xs, cellOf sch (g a) "id" = key a) →
      updateFirst (fun r => decide (cellOf sch r "id" = v)) f (xs.map g)
        = xs.map (fun a => if key a = v then f (g a) else g a) := by
  intro xs
  induction xs with
  | nil => intros; rfl
  | cons a xs ih =>
    intro hpw hg
    have hga : cellOf sch (g a) "id" = key a := hg a (List.mem_cons_self _ _)
    by_cases hka : key a = v
    · have hcond : decide (cellOf sch (g a) "id" = v) = true := by simp [hga, hka]
      have hrest : ∀ b ∈ xs, key b ≠ v := by
        intro b hb hkb
        have hpab := (List.pairwise_cons.1 hpw).1 (key b) (List.mem_map_of_mem _ hb)
        exact hv (hka ▸ hpab (by rw [hka, hkb]))
      simp only [List.map_cons, updateFirst, hcond, if_true, if_pos hka]
      exact congrArg _
        ((List.map_congr_left (fun b hb => by rw [if_neg (hrest b hb)])).symm)
    · have hcond : decide (cellOf sch (g a) "id" = v) = false := by simp [hga, hka]
      simp only [List.map_cons, updateFirst, hcond, Bool.false_eq_true, if_false,
        if_neg hka]
      exact congrArg _
        (ih (List.pairwise_cons.1 hpw).2 (fun b hb => hg b (List.mem_cons_of_mem _ hb)))

/-! ### lastWins and firstOccs -/

theorem id_not_mem_filter (bc : List String) :
    "id" ∉ bc.filter (fun c => c ≠ "id") := by
  intro h
  have := (List.mem_filter.1 h).2
  simp at this

theorem lastWins_cons (bc : List String) (v : Value) (bv : List Value)
    (rest : List (List Value)) :
    lastWins bc v (bv :: rest)
      = match lastWins bc v rest with
        | some w => some w
        | Option.none =>
          if v ≠ Value.null ∧ rowId bc bv = v then some bv else Option.none := rfl

theorem lastWins_null (bc : List String) :
    ∀ (l : List (List Value)), lastWins bc Value.null l = Option.none := by
  intro l
  induction l with
  | nil => rfl
  | cons bv rest ih => simp [lastWins, ih]

theorem lastWins_eq_some (bc : List String) (v : Value) :
    ∀ (l : List (List Value)) (w : List Value),
      lastWins bc v l = some w → rowId bc w = v ∧ v ≠ Value.null := by
  intro l
  induction l with
  | nil => intro w h; cases h
  | cons bv rest ih =>
    intro w h
    rw [lastWins] at h
    cases hr : lastWins bc v rest with
    | some w' =>
      rw [hr] at h
      injection h with h
      exact h ▸ ih w' hr
    | none =>
      rw [hr] at h
      by_cases hcond : v ≠ Value.null ∧ rowId bc bv = v
      · rw [if_pos hcond] at h
        injection h with h
        exact h ▸ ⟨hcond.2, hcond.1⟩
      · rw [if_neg hcond] at h
        cases h

theorem lastWins_concat_hit (bc : List String) (v : Value) (x : List Value)
    (hv : v ≠ Value.null) (hx : rowId bc x = v) :
    ∀ (l : List (List Value)), lastWins bc v (l ++ [x]) = some x := by
  intro l
  induction l with
  | nil => simp [lastWins, hv, hx]
  | cons bv l ih => rw [List.cons_append, lastWins_cons, ih]

theorem lastWins_concat_miss (bc : List String) (v : Value) (x : List Value)
    (h : v = Value.null ∨ rowId bc x ≠ v) :
    ∀ (l : List (List Value)), lastWins bc v (l ++ [x]) = lastWins bc v l := by
  intro l
  induction l with
  | nil =>
    rcases h with h | h
    · subst h; simp [lastWins]
    · simp [lastWins, h]
  | cons bv l ih => rw [List.cons_append, lastWins_cons, ih, lastWins_cons]

theorem lastWins_isSome (bc : List String) (v : Value) (hv : v ≠ Value.null) :
    ∀ (l : List (List Value)), v ∈ l.map (rowId bc) →
      ∃ w, lastWins bc v l = some w := by
  intro l
  induction l with
  | nil => intro h; cases h
  | cons bv l ih =>
    intro h
    rw [lastWins]
    cases hr : lastWins bc v l with
    | some w => exact ⟨w, rfl⟩
    | none =>
      rw [List.map_cons] at h
      rcases List.mem_cons.1 h with h' | h'
      · exact ⟨bv, by rw [if_pos ⟨hv, h'.symm⟩]⟩
      · obtain ⟨w, hw⟩ := ih h'
        rw [hw] at hr
        cases hr

theorem mem_of_mem_firstOccs (bc : List String) :
    ∀ (l : List (List Value)) (seen : List Value) (bv : List Value),
      bv ∈ firstOccs bc seen l → bv ∈ l := by
  intro l
  induction l with
  | nil => intro seen bv h; cases h
  | cons b l ih =>
    intro seen bv h
    rw [firstOccs] at h
    by_cases h0 : rowId bc b = Value.null
    · rw [if_pos h0] at h
      rcases List.mem_cons.1 h with rfl | h'
      · exact List.mem_cons_self _ _
      · exact List.mem_cons_of_mem _ (ih seen bv h')
    · rw [if_neg h0] at h
      by_cases h1 : rowId bc b ∈ seen
      · rw [if_pos h1] at h
        exact List.mem_cons_of_mem _ (ih seen bv h)
      · rw [if_neg h1] at h
        rcases List.mem_cons.1 h with rfl | h'
        · exact List.mem_cons_self _ _
        · exact List.mem_cons_of_mem _ (ih _ bv h')

theorem firstOccs_fresh (bc : List String) :
    ∀ (l : List (List Value)) (seen : List Value) (bv : List Value),
      bv ∈ firstOccs bc seen l →
      rowId bc bv = Value.null ∨ rowId bc bv ∉ seen := by
  intro l
  induction l with
  | nil => intro seen bv h; cases h
  | cons b l ih =>
    intro seen bv h
    rw [firstOccs] at h
    by_cases h0 : rowId bc b = Value.null
    · rw [if_pos h0] at h
      rcases List.mem_cons.1 h with rfl | h'
      · exact Or.inl h0
      · exact ih seen bv h'
    · rw [if_neg h0] at h
      by_cases h1 : rowId bc b ∈ seen
      · rw [if_pos h1] at h
        exact ih seen bv h
      · rw [if_neg h1] at h
        rcases List.mem_cons.1 h with rfl | h'
        · exact Or.inr h1
        · rcases ih _ bv h' with hn | hn
          · exact Or.inl hn
          · exact Or.inr (fun hm => hn (List.mem_cons_of_mem _ hm))

theorem firstOccs_concat_skip (bc : List String) (x : List Value)
    (hxn : rowId bc x ≠ Value.null) :
    ∀ (l : List (List Value)) (seen : List Value),
      (rowId bc x ∈ seen ∨ rowId bc x ∈ l.map (rowId bc)) →
      firstOccs bc seen (l ++ [x]) = firstOccs bc seen l := by
  intro l
  induction l with
  | nil =>
    intro seen h
    rcases h with h | h
    · simp [firstOccs, hxn, h]
    · cases h
  | cons b l ih =>
    intro seen h
    rw [List.cons_append, firstOccs, firstOccs]
    by_cases h0 : rowId bc b = Value.null
    · rw [if_pos h0, if_pos h0]
      refine congrArg _ (ih seen ?_)
      rcases h with h | h
      · exact Or.inl h
      · rw [List.map_cons] at h
        rcases List.mem_cons.1 h with h' | h'
        · exact absurd (h' ▸ h0) hxn
        · exact Or.inr h'
    · rw [if_neg h0, if_neg h0]
      by_cases h1 : rowId bc b ∈ seen
      · rw [if_pos h1, if_pos h1]
        refine ih seen ?_
        rcases h with h | h
        · exact Or.inl h
        · rw [List.map_cons] at h
          rcases List.mem_cons.1 h with h' | h'
          · exact Or.inl (h' ▸ h1)
          · exact Or.inr h'
      · rw [if_neg h1, if_neg h1]
        refine congrArg _ (ih _ ?_)
        rcases h with h | h
        · exact Or.inl (List.mem_cons_of_mem _ h)
        · rw [List.map_cons] at h
          rcases List.mem_cons.1 h with h' | h'
          · exact Or.inl (h' ▸ List.mem_cons_self _ _)
          · exact Or.inr h'

theorem firstOccs_concat_keep (bc : List String) (x : List Value) :
    ∀ (l : List (List Value)) (seen : List Value),
      (rowId bc x = Value.null ∨
        (rowId bc x ∉ seen ∧ rowId bc x ∉ l.map (rowId bc))) →
      firstOccs bc seen (l ++ [x]) = firstOccs bc seen l ++ [x] := by
  intro l
  induction l with
  | nil =>
    intro seen h
    rcases h with h | ⟨h1, _⟩
    · simp [firstOccs, h]
    · by_cases h0 : rowId bc x = Value.null
      · simp [firstOccs, h0]
      · simp [firstOccs, h0, h1]
  | cons b l ih =>
    intro seen h
    rw [List.cons_append, firstOccs, firstOccs]
    have htail : rowId bc x = Value.null ∨
        (rowId bc x ∉ seen ∧ rowId bc x ∉ l.map (rowId bc)) := by
      rcases h with h | ⟨h1, h2⟩
      · exact Or.inl h
      · exact Or.inr ⟨h1, fun hm => h2 (by simp [hm])⟩
    by_cases h0 : rowId bc b = Value.null
    · rw [if_pos h0, if_pos h0, ih seen htail, List.cons_append]
    · rw [if_neg h0, if_neg h0]
      by_cases h1 : rowId bc b ∈ seen
      · rw [if_pos h1, if_pos h1]
        exact ih seen htail
      · rw [if_neg h1, if_neg h1]
        have hx' : rowId bc x = Value.null ∨
            (rowId bc x ∉ rowId bc b :: seen ∧ rowId bc x ∉ l.map (rowId bc)) := by
          rcases h with h | ⟨hs, hm⟩
          · exact Or.inl h
          · refine Or.inr ⟨?_, fun hmm => hm (by simp [hmm])⟩
            intro hc
            rcases List.mem_cons.1 hc with hc' | hc'
            · exact hm (by simp [hc'])
            · exact hs hc'
        rw [ih _ hx', List.cons_append]

theorem mem_map_firstOccs (bc : List String) (v : Value) (hv : v ≠ Value.null) :
    ∀ (l : List (List Value)) (seen : List Value),
      v ∈ (firstOccs bc seen l).map (rowId bc) ↔
        (v ∉ seen ∧ v ∈ l.map (rowId bc)) := by
  intro l
  induction l with
  | nil => intro seen; simp [firstOccs]
  | cons b l ih =>
    intro seen
    rw [firstOccs]
    by_cases h0 : rowId bc b = Value.null
    · rw [if_pos h0]
      have hvb : v ≠ rowId bc b := fun h => hv (h.trans h0)
      simp only [List.map_cons, List.mem_cons, ih]
      constructor
      · rintro (h | ⟨h1, h2⟩)
        · exact absurd h hvb
        · exact ⟨h1, Or.inr h2⟩
      · rintro ⟨h1, h | h⟩
        · exact absurd h hvb
        · exact Or.inr ⟨h1, h⟩
    · rw [if_neg h0]
      by_cases h1 : rowId bc b ∈ seen
      · rw [if_pos h1]
        rw [ih]
        simp only [List.map_cons, List.mem_cons]
        constructor
        · rintro ⟨hs, hm⟩
          exact ⟨hs, Or.inr hm⟩
        · rintro ⟨hs, h | h⟩
          · exact absurd (h ▸ h1) hs
          · exact ⟨hs, h⟩
      · rw [if_neg h1]
        simp only [List.map_cons, List.mem_cons, ih]
        constructor
        · rintro (h | ⟨hs, hm⟩)
          · exact ⟨fun hv2 => h1 (h ▸ hv2), Or.inl h⟩
          · exact ⟨fun hc => hs (Or.inr hc), Or.inr hm⟩
        · rintro ⟨hs, h | h⟩
          · exact Or.inl h
          · by_cases hvb : v = rowId bc b
            · exact Or.inl hvb
            · exact Or.inr ⟨fun hc => hc.elim hvb hs, h⟩

theorem firstOccs_idsOk (bc : List String) :
    ∀ (l : List (List Value)) (seen : List Value),
      IdsOk ((firstOccs bc seen l).map (rowId bc)) := by
  intro l
  induction l with
  | nil => intro seen; exact List.Pairwise.nil
  | cons b l ih =>
    intro seen
    rw [firstOccs]
    by_cases h0 : rowId bc b = Value.null
    · rw [if_pos h0]
      rw [List.map_cons]
      refine List.pairwise_cons.2 ⟨?_, ih seen⟩
      intro w _ h
      exact h ▸ h0
    · rw [if_neg h0]
      by_cases h1 : rowId bc b ∈ seen
      · rw [if_pos h1]
        exact ih seen
      · rw [if_neg h1]
        rw [List.map_cons]
        refine List.pairwise_cons.2 ⟨?_, ih _⟩
        intro w hw heq
        by_cases hwn : w = Value.null
        · exact heq.trans hwn
        · have := (mem_map_firstOccs bc w hwn l _).1 hw
          exact absurd (heq ▸ List.mem_cons_self _ _) this.1

theorem firstOccs_all_seen (bc : List String) :
    ∀ (l : List (List Value)) (seen : List Value),
      (∀ bv ∈ l, rowId bc bv ≠ Value.null ∧ rowId bc bv ∈ seen) →
      firstOccs bc seen l = [] := by
  intro l
  induction l with
  | nil => intro seen _; rfl
  | cons b l ih =>
    intro seen h
    have hb := h b (List.mem_cons_self _ _)
    rw [firstOccs, if_neg hb.1, if_pos hb.2]
    exact ih seen (fun bv hbv => h bv (List.mem_cons_of_mem _ hbv))

/-! ### tableIds and the spec components -/

theorem tableIds_append (sch : List Column) (xs ys : List (List Value)) :
    tableIds sch (xs ++ ys) = tableIds sch xs ++ tableIds sch ys :=
  List.map_append _ _ _

theorem exists_id_iff (sch : List Column) (rows : List (List Value)) (v : Value) :
    (∃ r ∈ rows, cellOf sch r "id" = v) ↔ v ∈ tableIds sch rows := by
  simp [tableIds, List.mem_map]

theorem tableIds_specUpdated (sch : List Column) (bc : List String)
    (brs rows : List (List Value)) :
    tableIds sch (specUpdated sch bc brs rows) = tableIds sch rows := by
  unfold tableIds specUpdated
  rw [List.map_map]
  refine List.map_congr_left ?_
  intro r _
  show cellOf sch (match lastWins bc (cellOf sch r "id") brs with
    | some bv => applyUpdate (bc.filter (fun c => c ≠ "id")) (bc.zip bv) sch r
    | Option.none => r) "id" = cellOf sch r "id"
  cases lastWins bc (cellOf sch r "id") brs with
  | none => rfl
  | some bv => exact cellOf_applyUpdate _ _ _ (id_not_mem_filter bc) sch r

theorem idR_specNews_entry (sch : List Column) (bc : List String)
    (brs : List (List Value)) (hid : "id" ∈ colNames sch) (bv : List Value) :
    cellOf sch (mkRow (bc.zip ((lastWins bc (rowId bc bv) brs).getD bv)) sch) "id"
      = rowId bc bv := by
  rw [cellOf_mkRow _ _ _ hid]
  cases hlw : lastWins bc (rowId bc bv) brs with
  | none => rfl
  | some w =>
    rw [Option.getD_some]
    exact (lastWins_eq_some bc _ brs w hlw).1

theorem tableIds_specNews (sch : List Column) (bc : List String)
    (brs rows : List (List Value)) (hid : "id" ∈ colNames sch) :
    tableIds sch (specNews sch bc brs rows)
      = (firstOccs bc (tableIds sch rows) brs).map (rowId bc) := by
  unfold tableIds specNews
  rw [List.map_map]
  refine List.map_congr_left ?_
  intro bv _
  exact idR_specNews_entry sch bc brs hid bv

theorem tableIds_upsertSpecRows (sch : List Column) (bc : List String)
    (l rows : List (List Value)) (hid : "id" ∈ colNames sch) :
    tableIds sch (upsertSpecRows sch bc l rows)
      = tableIds sch rows ++ (firstOccs bc (tableIds sch rows) l).map (rowId bc) := by
  unfold upsertSpecRows
  rw [tableIds_append, tableIds_specUpdated, tableIds_specNews sch bc l rows hid]

theorem idR_specUpdated_entry (sch : List Column) (bc : List String)
    (l : List (List Value)) (r : List Value) :
    cellOf sch (match lastWins bc (cellOf sch r "id") l with
      | some bv => applyUpdate (bc.filter (fun c => c ≠ "id")) (bc.zip bv) sch r
      | Option.none => r) "id" = cellOf sch r "id" := by
  cases lastWins bc (cellOf sch r "id") l with
  | none => rfl
  | some bv => exact cellOf_applyUpdate _ _ _ (id_not_mem_filter bc) sch r

theorem specUpdated_concat_miss (sch : List Column) (bc : List String)
    (l : List (List Value)) (x : List Value) (rows : List (List Value))
    (h : ∀ r ∈ rows, cellOf sch r "id" = Value.null ∨ rowId bc x ≠ cellOf sch r "id") :
    specUpdated sch bc (l ++ [x]) rows = specUpdated sch bc l rows := by
  unfold specUpdated
  refine List.map_congr_left ?_
  intro r hr
  rw [lastWins_concat_miss bc _ x (h r hr)]

/-! ### The three outcomes of one executemany step -/

theorem upsertStep_hit_update (sch : List Column) (bc : List String)
    (rows : List (List Value)) (bv : List Value)
    (h1 : rowId bc bv ≠ Value.null) (h2 : rowId bc bv ∈ tableIds sch rows) :
    upsertStep sch true bc false rows bv
      = updateFirst (fun r => decide (cellOf sch r "id" = rowId bc bv))
          (fun r => applyUpdate (bc.filter (fun c => c ≠ "id")) (bc.zip bv) sch r)
          rows := by
  simp only [upsertStep]
  rw [if_pos ⟨trivial, h1, (exists_id_iff sch rows _).2 h2⟩]
  rfl

theorem upsertStep_hit_ignore (sch : List Column) (bc : List String)
    (rows : List (List Value)) (bv : List Value)
    (h1 : rowId bc bv ≠ Value.null) (h2 : rowId bc bv ∈ tableIds sch rows) :
    upsertStep sch true bc true rows bv = rows := by
  simp only [upsertStep]
  rw [if_pos ⟨trivial, h1, (exists_id_iff sch rows _).2 h2⟩]
  rfl

theorem upsertStep_miss (sch : List Column) (idU : Bool) (bc : List String)
    (ign : Bool) (rows : List (List Value)) (bv : List Value)
    (h : ¬(idU = true ∧ rowId bc bv ≠ Value.null ∧ rowId bc bv ∈ tableIds sch rows)) :
    upsertStep sch idU bc ign rows bv = rows ++ [mkRow (bc.zip bv) sch] := by
  simp only [upsertStep]
  rw [if_neg (fun hc => h ⟨hc.1, hc.2.1, (exists_id_iff sch rows _).1 hc.2.2⟩)]

/-! ### Characterization of the INSERT OR IGNORE batch -/

theorem foldl_upsert_ignore (sch : List Column) (bc : List String)
    (hid : "id" ∈ colNames sch) :
    ∀ (brs rows : List (List Value)),
      brs.foldl (upsertStep sch true bc true) rows
        = rows ++ (firstOccs bc (tableIds sch rows) brs).map
            (fun bv => mkRow (bc.zip bv) sch) := by
  intro brs
  induction brs using List.reverseRecOn with
  | nil => intro rows; simp [firstOccs]
  | append_singleton l x ih =>
    intro rows
    rw [List.foldl_append, List.foldl_cons, List.foldl_nil, ih rows]
    have hidsR : tableIds sch (rows ++ (firstOccs bc (tableIds sch rows) l).map
          (fun bv => mkRow (bc.zip bv) sch))
        = tableIds sch rows ++ (firstOccs bc (tableIds sch rows) l).map (rowId bc) := by
      rw [tableIds_append]
      congr 1
      unfold tableIds
      rw [List.map_map]
      refine List.map_congr_left ?_
      intro bv _
      exact cellOf_mkRow _ _ sch hid
    by_cases hvn : rowId bc x = Value.null
    · rw [upsertStep_miss sch true bc true _ x (fun hc => hc.2.1 hvn)]
      rw [firstOccs_concat_keep bc x l _ (Or.inl hvn), List.map_append]
      simp [List.append_assoc]
    · by_cases hcon : rowId bc x ∈ tableIds sch rows ∨ rowId bc x ∈ l.map (rowId bc)
      · have hmem : rowId bc x ∈ tableIds sch (rows ++
            (firstOccs bc (tableIds sch rows) l).map (fun bv => mkRow (bc.zip bv) sch)) := by
          rw [hidsR]
          by_cases hseen : rowId bc x ∈ tableIds sch rows
          · exact List.mem_append.2 (Or.inl hseen)
          · rcases hcon with h | h
            · exact absurd h hseen
            · exact List.mem_append.2
                (Or.inr ((mem_map_firstOccs bc _ hvn l _).2 ⟨hseen, h⟩))
        rw [upsertStep_hit_ignore sch bc _ x hvn hmem,
          firstOccs_concat_skip bc x hvn l _ hcon]
      · push_neg at hcon
        have hnc : ¬(true = true ∧ rowId bc x ≠ Value.null ∧
            rowId bc x ∈ tableIds sch (rows ++
              (firstOccs bc (tableIds sch rows) l).map (fun bv => mkRow (bc.zip bv) sch))) := by
          rintro ⟨-, -, hmem⟩
          rw [hidsR] at hmem
          rcases List.mem_append.1 hmem with h | h
          · exact hcon.1 h
          · exact hcon.2 ((mem_map_firstOccs bc _ hvn l _).1 h).2
        rw [upsertStep_miss sch true bc true _ x hnc,
          firstOccs_concat_keep bc x l _ (Or.inr ⟨hcon.1, hcon.2⟩), List.map_append]
        simp [List.append_assoc]

/-! ### Characterization of the ON CONFLICT DO UPDATE batch -/

theorem foldl_upsert_update (sch : List Column) (bc : List String)
    (hid : "id" ∈ colNames sch) :
    ∀ (brs rows : List (List Value)), IdsOk (tableIds sch rows) →
      brs.foldl (upsertStep sch true bc false) rows
        = upsertSpecRows sch bc brs rows := by
  intro brs
  induction brs using List.reverseRecOn with
  | nil =>
    intro rows _
    unfold upsertSpecRows specUpdated specNews
    simp [lastWins, firstOccs]
  | append_singleton l x ih =>
    intro rows hds
    rw [List.foldl_append, List.foldl_cons, List.foldl_nil, ih rows hds]
    by_cases hvn : rowId bc x = Value.null
    · -- a NULL id never conflicts: the row plainly inserts
      rw [upsertStep_miss sch true bc false _ x (fun hc => hc.2.1 hvn)]
      have hU : specUpdated sch bc (l ++ [x]) rows = specUpdated sch bc l rows :=
        specUpdated_concat_miss sch bc l x rows (fun r _ => by
          by_cases hr0 : cellOf sch r "id" = Value.null
          · exact Or.inl hr0
          · exact Or.inr (fun he => hr0 (he ▸ hvn)))
      have hN : specNews sch bc (l ++ [x]) rows
          = specNews sch bc l rows ++ [mkRow (bc.zip x) sch] := by
        unfold specNews
        rw [firstOccs_concat_keep bc x l _ (Or.inl hvn), List.map_append]
        congr 1
        · refine List.map_congr_left ?_
          intro bv _
          have hside : rowId bc bv = Value.null ∨ rowId bc x ≠ rowId bc bv := by
            by_cases hbv0 : rowId bc bv = Value.null
            · exact Or.inl hbv0
            · exact Or.inr (fun he => hbv0 (he ▸ hvn))
          rw [lastWins_concat_miss bc _ x hside]
        · simp only [List.map_cons, List.map_nil]
          rw [hvn, lastWins_null, Option.getD_none]
      unfold upsertSpecRows
      rw [hU, hN, List.append_assoc]
    · by_cases hA : rowId bc x ∈ tableIds sch rows
      · -- the id is already stored: the stored row updates in place
        have hmem : rowId bc x ∈ tableIds sch (upsertSpecRows sch bc l rows) := by
          rw [tableIds_upsertSpecRows sch bc l rows hid]
          exact List.mem_append.2 (Or.inl hA)
        rw [upsertStep_hit_update sch bc _ x hvn hmem]
        unfold upsertSpecRows
        have hany : (specUpdated sch bc l rows).any
            (fun r => decide (cellOf sch r "id" = rowId bc x)) = true := by
          rw [List.any_eq_true]
          have hm : rowId bc x ∈ tableIds sch (specUpdated sch bc l rows) := by
            rw [tableIds_specUpdated]; exact hA
          obtain ⟨r, hr, hrv⟩ := (exists_id_iff _ _ _).2 hm
          exact ⟨r, hr, by simp [hrv]⟩
        rw [updateFirst_append_true _ _ _ _ hany]
        congr 1
        · -- within the stored rows
          unfold specUpdated
          rw [updateFirst_map_key sch (rowId bc x) hvn (fun r => cellOf sch r "id")
            _ _ rows hds (fun r _ => idR_specUpdated_entry sch bc l r)]
          refine List.map_congr_left ?_
          intro r _
          by_cases hrv : cellOf sch r "id" = rowId bc x
          · rw [if_pos hrv,
              lastWins_concat_hit bc _ x (fun h0 => hvn (hrv ▸ h0)) hrv.symm]
            cases hlw : lastWins bc (cellOf sch r "id") l with
            | none => rfl
            | some bv => exact applyUpdate_applyUpdate _ _ _ sch r
          · rw [if_neg hrv,
              lastWins_concat_miss bc _ x (Or.inr (fun he => hrv he.symm))]
        · -- the batch-inserted rows are untouched
          unfold specNews
          rw [firstOccs_concat_skip bc x hvn l _ (Or.inl hA)]
          refine List.map_congr_left ?_
          intro bv hbv
          have hside : rowId bc bv = Value.null ∨ rowId bc x ≠ rowId bc bv := by
            by_cases hbv0 : rowId bc bv = Value.null
            · exact Or.inl hbv0
            · refine Or.inr (fun he => ?_)
              rcases firstOccs_fresh bc l _ bv hbv with h0 | h0
              · exact hbv0 h0
              · exact h0 (he ▸ hA)
          rw [lastWins_concat_miss bc _ x hside]
      · by_cases hBm : rowId bc x ∈ l.map (rowId bc)
        · -- the id was inserted earlier in this batch: that row updates
          have hkept : rowId bc x ∈
              (firstOccs bc (tableIds sch rows) l).map (rowId bc) :=
            (mem_map_firstOccs bc _ hvn l _).2 ⟨hA, hBm⟩
          have hmem : rowId bc x ∈ tableIds sch (upsertSpecRows sch bc l rows) := by
            rw [tableIds_upsertSpecRows sch bc l rows hid]
            exact List.mem_append.2 (Or.inr hkept)
          rw [upsertStep_hit_update sch bc _ x hvn hmem]
          unfold upsertSpecRows
          have hfalse : ∀ a ∈ specUpdated sch bc l rows,
              (fun r => decide (cellOf sch r "id" = rowId bc x)) a = false := by
            intro a ha
            unfold specUpdated at ha
            obtain ⟨r, hr, rfl⟩ := List.mem_map.1 ha
            simp only [decide_eq_false_iff_not]
            intro heq
            rw [idR_specUpdated_entry] at heq
            exact hA (heq ▸ List.mem_map_of_mem _ hr)
          rw [updateFirst_append_false _ _ _ _ hfalse]
          congr 1
          · -- the stored rows never matched this id
            exact (specUpdated_concat_miss sch bc l x rows (fun r hr => by
              by_cases hr0 : cellOf sch r "id" = Value.null
              · exact Or.inl hr0
              · exact Or.inr (fun he => hA (he ▸ List.mem_map_of_mem _ hr)))).symm
          · -- among the fresh inserts, the first occurrence absorbs the update
            unfold specNews
            rw [firstOccs_concat_skip bc x hvn l _ (Or.inr hBm)]
            rw [updateFirst_map_key sch (rowId bc x) hvn (rowId bc)
              _ _ _ (firstOccs_idsOk bc l _)
              (fun bv _ => idR_specNews_entry sch bc l hid bv)]
            refine List.map_congr_left ?_
            intro bv hbv
            by_cases hbvv : rowId bc bv = rowId bc x
            · rw [if_pos hbvv,
                lastWins_concat_hit bc _ x (fun h0 => hvn (hbvv ▸ h0)) hbvv.symm,
                Option.getD_some]
              have hw : assocGet (bc.zip ((lastWins bc (rowId bc bv) l).getD bv)) "id"
                  = assocGet (bc.zip x) "id" := by
                cases hlw : lastWins bc (rowId bc bv) l with
                | none =>
                  rw [Option.getD_none]
                  exact hbvv
                | some w =>
                  rw [Option.getD_some]
                  exact ((lastWins_eq_some bc _ l w hlw).1).trans hbvv
              exact applyUpdate_mkRow bc _ x hw sch
            · rw [if_neg hbvv,
                lastWins_concat_miss bc _ x (Or.inr (fun he => hbvv he.symm))]
        · -- a genuinely fresh id: the row inserts at the end
          have hnc : ¬(true = true ∧ rowId bc x ≠ Value.null ∧
              rowId bc x ∈ tableIds sch (upsertSpecRows sch bc l rows)) := by
            rintro ⟨-, -, hmem⟩
            rw [tableIds_upsertSpecRows sch bc l rows hid] at hmem
            rcases List.mem_append.1 hmem with h | h
            · exact hA h
            · exact hBm ((mem_map_firstOccs bc _ hvn l _).1 h).2
          rw [upsertStep_miss sch true bc false _ x hnc]
          have hU : specUpdated sch bc (l ++ [x]) rows = specUpdated sch bc l rows :=
            specUpdated_concat_miss sch bc l x rows (fun r hr => by
              by_cases hr0 : cellOf sch r "id" = Value.null
              · exact Or.inl hr0
              · exact Or.inr (fun he => hA (he ▸ List.mem_map_of_mem _ hr)))
          have hN : specNews sch bc (l ++ [x]) rows
              = specNews sch bc l rows ++ [mkRow (bc.zip x) sch] := by
            unfold specNews
            rw [firstOccs_concat_keep bc x l _ (Or.inr ⟨hA, hBm⟩), List.map_append]
            congr 1
            · refine List.map_congr_left ?_
              intro bv hbv
              have hside : rowId bc bv = Value.null ∨ rowId bc x ≠ rowId bc bv := by
                by_cases hbv0 : rowId bc bv = Value.null
                · exact Or.inl hbv0
                · refine Or.inr (fun he => ?_)
                  exact hBm (he ▸ List.mem_map_of_mem _ (mem_of_mem_firstOccs bc l _ bv hbv))
              rw [lastWins_concat_miss bc _ x hside]
            · simp only [List.map_cons, List.map_nil]
              rw [lastWins_concat_hit bc _ x hvn rfl, Option.getD_some]
          unfold upsertSpecRows
          rw [hU, hN, List.append_assoc]

/-! ### Assembling upsert_batch from the characterizations -/

theorem tableIds_ignore_result (sch : List Column) (bc : List String)
    (rows brs : List (List Value)) (hid : "id" ∈ colNames sch) :
    tableIds sch (rows ++ (firstOccs bc (tableIds sch rows) brs).map
        (fun bv => mkRow (bc.zip bv) sch))
      = tableIds sch rows ++
        (firstOccs bc (tableIds sch rows) brs).map (rowId bc) := by
  rw [tableIds_append]
  congr 1
  unfold tableIds
  rw [List.map_map]
  refine List.map_congr_left ?_
  intro bv _
  exact cellOf_mkRow _ _ sch hid

theorem upsert_batch_ok_inv (s : Store) (name : String) (data : Frame) (s1 : Store)
    (hok : upsert_batch s name data = .ok s1) :
    ∃ t, findTable s name = some t ∧
      colNames data.cols ≠ [] ∧
      (∀ c ∈ colNames data.cols, c ∈ colNames t.schema) ∧
      ¬((colNames data.cols).filter (fun c => c ≠ "id") ≠ [] ∧ t.idUnique = false) ∧
      s1 = setTable s name { t with
        rows := data.rows.foldl
          (upsertStep t.schema t.idUnique (colNames data.cols)
            (((colNames data.cols).filter (fun c => c ≠ "id")).isEmpty)) t.rows } := by
  unfold upsert_batch at hok
  cases hf : findTable s name <;> rw [hf] at hok
  · cases hok
  · rename_i t
    dsimp only at hok
    by_cases h1 : colNames data.cols = []
    · rw [if_pos h1] at hok; cases hok
    · rw [if_neg h1] at hok
      by_cases h2 : ∀ c ∈ colNames data.cols, c ∈ colNames t.schema
      · rw [if_neg (not_not_intro h2)] at hok
        by_cases h3 : (colNames data.cols).filter (fun c => c ≠ "id") ≠ [] ∧
            t.idUnique = false
        · rw [if_pos h3] at hok; cases hok
        · rw [if_neg h3] at hok
          injection hok with hok
          exact ⟨t, rfl, h1, h2, h3, hok.symm⟩
      · rw [if_pos h2] at hok; cases hok

theorem upsert_batch_update_eq (s : Store) (name : String) (data : Frame)
    (t : Table)
    (hf : findTable s name = some t)
    (huniq : t.idUnique = true)
    (hid : "id" ∈ colNames t.schema)
    (hds : IdsOk (tableIds t.schema t.rows))
    (hcols : ∀ c ∈ colNames data.cols, c ∈ colNames t.schema)
    (hnonid : (colNames data.cols).filter (fun c => c ≠ "id") ≠ []) :
    upsert_batch s name data = .ok (setTable s name { t with
      rows := upsertSpecRows t.schema (colNames data.cols) data.rows t.rows }) := by
  have hbc : colNames data.cols ≠ [] := by
    intro h
    rw [h] at hnonid
    exact hnonid rfl
  have hisE : ((colNames data.cols).filter (fun c => c ≠ "id")).isEmpty = false := by
    cases hfil : (colNames data.cols).filter (fun c => c ≠ "id") with
    | nil => exact absurd hfil hnonid
    | cons a l => rfl
  unfold upsert_batch
  rw [hf]
  dsimp only
  rw [if_neg hbc, if_neg (not_not_intro hcols),
    if_neg (fun hc => by simp [huniq] at hc), hisE, huniq,
    foldl_upsert_update t.schema (colNames data.cols) hid data.rows t.rows hds]

theorem upsert_batch_ignore_eq (s : Store) (name : String) (data : Frame)
    (t : Table)
    (hf : findTable s name = some t)
    (huniq : t.idUnique = true)
    (hid : "id" ∈ colNames t.schema)
    (hbc : colNames data.cols = ["id"]) :
    upsert_batch s name data = .ok (setTable s name { t with
      rows := t.rows ++ (firstOccs ["id"] (tableIds t.schema t.rows) data.rows).map
        (fun bv => mkRow (["id"].zip bv) t.schema) }) := by
  unfold upsert_batch
  rw [hf]
  dsimp only
  rw [hbc]
  rw [if_neg (by simp : ¬(["id"] : List String) = []),
    if_neg (not_not_intro (by simpa using hid)),
    if_neg (fun hc => hc.1 rfl), huniq]
  have hisE : ((["id"] : List String).filter (fun c => c ≠ "id")).isEmpty = true := rfl
  rw [hisE, foldl_upsert_ignore t.schema ["id"] hid data.rows t.rows]

/-! ### Lemmas for upsert idempotence -/

theorem specUpdated_append (sch : List Column) (bc : List String)
    (brs xs ys : List (List Value)) :
    specUpdated sch bc brs (xs ++ ys)
      = specUpdated sch bc brs xs ++ specUpdated sch bc brs ys := by
  unfold specUpdated
  exact List.map_append _ _ _

theorem specUpdated_upsertSpecRows (sch : List Column) (bc : List String)
    (brs rows : List (List Value)) (hid : "id" ∈ colNames sch) :
    specUpdated sch bc brs (upsertSpecRows sch bc brs rows)
      = upsertSpecRows sch bc brs rows := by
  unfold upsertSpecRows
  rw [specUpdated_append]
  congr 1
  · unfold specUpdated
    rw [List.map_map]
    refine List.map_congr_left ?_
    intro r _
    show (match lastWins bc (cellOf sch (match lastWins bc (cellOf sch r "id") brs with
        | some bv => applyUpdate (bc.filter (fun c => c ≠ "id")) (bc.zip bv) sch r
        | Option.none => r) "id") brs with
      | some bv => applyUpdate (bc.filter (fun c => c ≠ "id")) (bc.zip bv) sch
          (match lastWins bc (cellOf sch r "id") brs with
            | some bv => applyUpdate (bc.filter (fun c => c ≠ "id")) (bc.zip bv) sch r
            | Option.none => r)
      | Option.none =>
          match lastWins bc (cellOf sch r "id") brs with
          | some bv => applyUpdate (bc.filter (fun c => c ≠ "id")) (bc.zip bv) sch r
          | Option.none => r)
      = match lastWins bc (cellOf sch r "id") brs with
        | some bv => applyUpdate (bc.filter (fun c => c ≠ "id")) (bc.zip bv) sch r
        | Option.none => r
    rw [idR_specUpdated_entry]
    cases hlw : lastWins bc (cellOf sch r "id") brs with
    | none => rfl
    | some bv => exact applyUpdate_applyUpdate _ _ _ sch r
  · unfold specNews specUpdated
    rw [List.map_map]
    refine List.map_congr_left ?_
    intro bv _
    show (match lastWins bc (cellOf sch
        (mkRow (bc.zip ((lastWins bc (rowId bc bv) brs).getD bv)) sch) "id") brs with
      | some w => applyUpdate (bc.filter (fun c => c ≠ "id")) (bc.zip w) sch
          (mkRow (bc.zip ((lastWins bc (rowId bc bv) brs).getD bv)) sch)
      | Option.none => mkRow (bc.zip ((lastWins bc (rowId bc bv) brs).getD bv)) sch)
      = mkRow (bc.zip ((lastWins bc (rowId bc bv) brs).getD bv)) sch
    rw [idR_specNews_entry sch bc brs hid bv]
    cases hlw : lastWins bc (rowId bc bv) brs with
    | none => rfl
    | some w₀ =>
      rw [Option.getD_some]
      exact applyUpdate_mkRow bc w₀ w₀ rfl sch

theorem specNews_upsertSpecRows (sch : List Column) (bc : List String)
    (brs rows : List (List Value)) (hid : "id" ∈ colNames sch)
    (hnn : ∀ bv ∈ brs, rowId bc bv ≠ Value.null) :
    specNews sch bc brs (upsertSpecRows sch bc brs rows) = [] := by
  unfold specNews
  have hcond : ∀ bv ∈ brs, rowId bc bv ≠ Value.null ∧
      rowId bc bv ∈ tableIds sch (upsertSpecRows sch bc brs rows) := by
    intro bv hbv
    refine ⟨hnn bv hbv, ?_⟩
    rw [tableIds_upsertSpecRows sch bc brs rows hid]
    by_cases hseen : rowId bc bv ∈ tableIds sch rows
    · exact List.mem_append.2 (Or.inl hseen)
    · exact List.mem_append.2 (Or.inr ((mem_map_firstOccs bc _ (hnn bv hbv) brs _).2
        ⟨hseen, List.mem_map_of_mem _ hbv⟩))
  rw [firstOccs_all_seen bc brs _ hcond, List.map_nil]

theorem upsertSpecRows_idem (sch : List Column) (bc : List String)
    (brs rows : List (List Value)) (hid : "id" ∈ colNames sch)
    (hnn : ∀ bv ∈ brs, rowId bc bv ≠ Value.null) :
    upsertSpecRows sch bc brs (upsertSpecRows sch bc brs rows)
      = upsertSpecRows sch bc brs rows := by
  rw [show upsertSpecRows sch bc brs (upsertSpecRows sch bc brs rows)
      = specUpdated sch bc brs (upsertSpecRows sch bc brs rows)
        ++ specNews sch bc brs (upsertSpecRows sch bc brs rows) from rfl]
  rw [specUpdated_upsertSpecRows sch bc brs rows hid,
    specNews_upsertSpecRows sch bc brs rows hid hnn, List.append_nil]

theorem idsOk_upsertSpecRows (sch : List Column) (bc : List String)
    (brs rows : List (List Value)) (hid : "id" ∈ colNames sch)
    (hds : IdsOk (tableIds sch rows)) :
    IdsOk (tableIds sch (upsertSpecRows sch bc brs rows)) := by
  rw [tableIds_upsertSpecRows sch bc brs rows hid]
  refine List.pairwise_append.2 ⟨hds, firstOccs_idsOk bc brs _, ?_⟩
  intro a ha b hb hab
  by_cases hbn : b = Value.null
  · exact hab.trans hbn
  · exact absurd (hab ▸ ha) ((mem_map_firstOccs bc b hbn brs _).1 hb).1

/-! ### Lemmas for the never-deletes invariant -/

theorem tableIds_updateFirst (sch : List Column) (p : List Value → Bool)
    (f : List Value → List Value)
    (hf : ∀ r, cellOf sch (f r) "id" = cellOf sch r "id") :
    ∀ (rows : List (List Value)),
      tableIds sch (updateFirst p f rows) = tableIds sch rows := by
  intro rows
  induction rows with
  | nil => rfl
  | cons r rows ih =>
    rw [updateFirst_cons]
    by_cases hp : p r = true
    · rw [if_pos hp]
      unfold tableIds
      rw [List.map_cons, List.map_cons, hf r]
    · rw [if_neg hp]
      unfold tableIds
      rw [List.map_cons, List.map_cons]
      exact congrArg _ ih

theorem tableIds_foldl_prefix (sch : List Column) (idU : Bool) (bc : List String)
    (ign : Bool) :
    ∀ (brs rows : List (List Value)), ∃ ext,
      tableIds sch (brs.foldl (upsertStep sch idU bc ign) rows)
        = tableIds sch rows ++ ext := by
  intro brs
  induction brs with
  | nil => intro rows; exact ⟨[], (List.append_nil _).symm⟩
  | cons bv brs ih =>
    intro rows
    rw [List.foldl_cons]
    obtain ⟨ext, hext⟩ := ih (upsertStep sch idU bc ign rows bv)
    have hstep : ∃ e0, tableIds sch (upsertStep sch idU bc ign rows bv)
        = tableIds sch rows ++ e0 := by
      by_cases hc : idU = true ∧ rowId bc bv ≠ Value.null ∧
          rowId bc bv ∈ tableIds sch rows
      · simp only [upsertStep]
        rw [if_pos ⟨hc.1, hc.2.1, (exists_id_iff sch rows _).2 hc.2.2⟩]
        by_cases hign : ign = true
        · rw [if_pos hign]
          exact ⟨[], (List.append_nil _).symm⟩
        · rw [if_neg hign]
          refine ⟨[], ?_⟩
          rw [List.append_nil]
          exact tableIds_updateFirst sch _ _
            (fun r => cellOf_applyUpdate _ _ _ (id_not_mem_filter bc) sch r) rows
      · rw [upsertStep_miss sch idU bc ign rows bv hc, tableIds_append]
        exact ⟨_, rfl⟩
    obtain ⟨e0, he0⟩ := hstep
    refine ⟨e0 ++ ext, ?_⟩
    rw [hext, he0, List.append_assoc]

theorem tableIds_length (sch : List Column) (rows : List (List Value)) :
    (tableIds sch rows).length = rows.length := List.length_map _ _

/-! ### Claim C1: upsert merge semantics -/

/-- C1.  For a table whose `id` carries a uniqueness constraint (so its
stored non-NULL ids are distinct and `id` is a real column) and a batch
with at least one non-identity column, all of whose columns exist,
`upsert_batch` succeeds and produces exactly the spec's merge
(`upsertSpecRows`): each stored row whose `id` occurs in the batch has
every non-identity batch column rewritten to the last occurrence's
value, and each batch row with a fresh `id` inserts once, at its first
occurrence, with the last occurrence's values.  In particular the spec's
example table and batch yield exactly the spec's example result. -/
theorem upsert_merge_semantics :
    (∀ (s : Store) (name : String) (data : Frame) (t : Table),
        findTable s name = some t → t.idUnique = true →
        "id" ∈ colNames t.schema → IdsOk (tableIds t.schema t.rows) →
        (∀ c ∈ colNames data.cols, c ∈ colNames t.schema) →
        (colNames data.cols).filter (fun c => c ≠ "id") ≠ [] →
        upsert_batch s name data = .ok (setTable s name { t with
          rows := upsertSpecRows t.schema (colNames data.cols) data.rows t.rows })) ∧
    upsert_batch egStore "T" egFrame = .ok egStoreAfter :=
  ⟨fun s name data t hf huniq hid hds hcols hnonid =>
    upsert_batch_update_eq s name data t hf huniq hid hds hcols hnonid,
   by decide⟩

/-- Witness for C1 at the spec's example. -/
theorem upsert_merge_semantics_witness :
    upsert_batch egStore "T" egFrame = .ok (setTable egStore "T" { egTable with
      rows := upsertSpecRows egTable.schema (colNames egFrame.cols)
        egFrame.rows egTable.rows }) :=
  upsert_merge_semantics.1 egStore "T" egFrame egTable (by decide) (by decide)
    (by decide) (by decide) (by decide) (by decide)

/-! ### Claim C6: identity-only batches -/

/-- C6 (amended).  For an existing table whose `id` carries a uniqueness
constraint, an identity-only batch all of whose `id` values are non-NULL
upserts via insert-or-ignore: the call succeeds, every pre-existing row
is unchanged (the result extends them), the inserted rows are exactly
the first occurrences of ids not yet stored, and the resulting id set is
the union of the stored ids and the batch ids. -/
theorem upsert_id_only_insert_or_ignore (s : Store) (name : String)
    (data : Frame) (t : Table)
    (hf : findTable s name = some t)
    (huniq : t.idUnique = true)
    (hid : "id" ∈ colNames t.schema)
    (hbc : colNames data.cols = ["id"])
    (hnn : ∀ bv ∈ data.rows, rowId ["id"] bv ≠ Value.null) :
    upsert_batch s name data = .ok (setTable s name { t with
      rows := t.rows ++ (firstOccs ["id"] (tableIds t.schema t.rows) data.rows).map
        (fun bv => mkRow (["id"].zip bv) t.schema) }) ∧
    (∀ v, v ∈ tableIds t.schema (t.rows ++
        (firstOccs ["id"] (tableIds t.schema t.rows) data.rows).map
          (fun bv => mkRow (["id"].zip bv) t.schema)) ↔
      (v ∈ tableIds t.schema t.rows ∨ v ∈ data.rows.map (rowId ["id"]))) := by
  refine ⟨upsert_batch_ignore_eq s name data t hf huniq hid hbc, ?_⟩
  intro v
  rw [tableIds_ignore_result t.schema ["id"] t.rows data.rows hid, List.mem_append]
  constructor
  · rintro (h | h)
    · exact Or.inl h
    · by_cases hvn : v = Value.null
      · obtain ⟨bv, hbv, hbveq⟩ := List.mem_map.1 h
        exact absurd (hbveq.trans hvn)
          (hnn bv (mem_of_mem_firstOccs _ data.rows _ bv hbv))
      · exact Or.inr ((mem_map_firstOccs ["id"] v hvn data.rows _).1 h).2
  · rintro (h | h)
    · exact Or.inl h
    · by_cases hseen : v ∈ tableIds t.schema t.rows
      · exact Or.inl hseen
      · have hvn : v ≠ Value.null := by
          obtain ⟨bv, hbv, hbveq⟩ := List.mem_map.1 h
          exact hbveq ▸ hnn bv hbv
        exact Or.inr ((mem_map_firstOccs ["id"] v hvn data.rows _).2 ⟨hseen, h⟩)

/-- Counterexample to C6 as stated: on an existing table without a
uniqueness constraint on `id`, an id-only batch repeating a stored id
inserts a duplicate instead of being skipped; and even with the
constraint, a NULL id whose value is already stored inserts again
instead of being skipped. -/
theorem upsert_id_only_needs_unique_id :
    (upsert_batch noUniqueStore "t" idOnlyFrame
        = .ok [("t", ⟨[⟨"id", "INTEGER"⟩], false, [[Value.int 1], [Value.int 1]]⟩)] ∧
      upsert_batch noUniqueStore "t" idOnlyFrame ≠ .ok noUniqueStore) ∧
    (upsert_batch nullRowStore "u" nullOnlyFrame
        = .ok [("u", ⟨[⟨"id", "INTEGER"⟩], true, [[Value.null], [Value.null]]⟩)] ∧
      upsert_batch nullRowStore "u" nullOnlyFrame ≠ .ok nullRowStore) := by decide

/-- Witness for C6's theorem at a concrete id-only merge. -/
theorem upsert_id_only_insert_or_ignore_witness :
    upsert_batch idOnlyStore "t" idOnlyBatch
      = .ok [("t", ⟨[⟨"id", "INTEGER"⟩], true, [[Value.int 1], [Value.int 2]]⟩)] := by
  have h := (upsert_id_only_insert_or_ignore idOnlyStore "t" idOnlyBatch
    ⟨[⟨"id", "INTEGER"⟩], true, [[Value.int 1]]⟩ (by decide) (by decide)
    (by decide) (by decide) (by decide)).1
  rw [h]
  decide

/-! ### Claim C7: upsert never deletes -/

/-- C7.  Whenever `upsert_batch` succeeds, the table keeps its schema,
every row identity present before is still present after, and the row
count never decreases. -/
theorem upsert_never_deletes (s : Store) (name : String) (data : Frame)
    (s1 : Store) (hok : upsert_batch s name data = .ok s1) :
    ∃ t t1, findTable s name = some t ∧ findTable s1 name = some t1 ∧
      t1.schema = t.schema ∧
      (∀ v ∈ tableIds t.schema t.rows, v ∈ tableIds t1.schema t1.rows) ∧
      t.rows.length ≤ t1.rows.length := by
  obtain ⟨t, hf, -, -, -, hs1⟩ := upsert_batch_ok_inv s name data s1 hok
  subst hs1
  obtain ⟨ext, hext⟩ := tableIds_foldl_prefix t.schema t.idUnique
    (colNames data.cols) (((colNames data.cols).filter (fun c => c ≠ "id")).isEmpty)
    data.rows t.rows
  refine ⟨t, _, hf, findTable_setTable_self s name _, rfl, ?_, ?_⟩
  · intro v hv
    dsimp only
    rw [hext]
    exact List.mem_append.2 (Or.inl hv)
  · dsimp only
    have hlen := congrArg List.length hext
    rw [tableIds_length, List.length_append, tableIds_length] at hlen
    omega

/-- Witness for C7 at the spec's example upsert. -/
theorem upsert_never_deletes_witness :
    ∃ t t1, findTable egStore "T" = some t ∧ findTable egStoreAfter "T" = some t1 ∧
      t1.schema = t.schema ∧
      (∀ v ∈ tableIds t.schema t.rows, v ∈ tableIds t1.schema t1.rows) ∧
      t.rows.length ≤ t1.rows.length :=
  upsert_never_deletes egStore "T" egFrame egStoreAfter (by decide)

/-! ### Claim C10: empty batches -/

/-- C10 (amended).  An empty batch (zero rows) against an existing table
succeeds and leaves the entire store — schema and rows — unchanged,
provided the statement prepares: the batch has at least one column,
every batch column exists in the table, and the table has a uniqueness
constraint on `id` whenever the batch carries a non-identity column. -/
theorem upsert_empty_batch_noop (s : Store) (name : String) (data : Frame)
    (t : Table)
    (hf : findTable s name = some t)
    (hempty : data.rows = [])
    (hbc : colNames data.cols ≠ [])
    (hcols : ∀ c ∈ colNames data.cols, c ∈ colNames t.schema)
    (hprep : (colNames data.cols).filter (fun c => c ≠ "id") = [] ∨
      t.idUnique = true) :
    upsert_batch s name data = .ok s := by
  have hpre : ¬((colNames data.cols).filter (fun c => c ≠ "id") ≠ [] ∧
      t.idUnique = false) := by
    rintro ⟨hfil, hfu⟩
    rcases hprep with h | h
    · exact hfil h
    · rw [h] at hfu; cases hfu
  unfold upsert_batch
  rw [hf]
  dsimp only
  rw [if_neg hbc, if_neg (not_not_intro hcols), if_neg hpre, hempty, List.foldl_nil]
  show Except.ok (setTable s name t) = Except.ok s
  rw [setTable_of_findTable s name t hf]

/-- Counterexample to C10 as stated: an empty batch over columns
`id, name` against an existing table without a uniqueness constraint on
`id` fails with the constraint error raised when the `ON CONFLICT(id)`
statement is prepared — it does not succeed. -/
theorem upsert_empty_batch_can_fail :
    upsert_batch noUniqueWideStore "t" emptyFrame = .error Err.constraint := by
  decide

/-- Witness for C10 at a concrete empty batch. -/
theorem upsert_empty_batch_noop_witness :
    upsert_batch nullIdStore "t" emptyFrame = .ok nullIdStore :=
  upsert_empty_batch_noop nullIdStore "t" emptyFrame nullIdTable (by decide) rfl
    (by decide) (by decide) (Or.inr rfl)

/-! ### Claim C4: upsert idempotence -/

/-- C4 (amended).  For an existing table with a uniqueness constraint on
`id` and a batch all of whose rows carry a non-NULL `id`, a successful
upsert is idempotent: applying the same batch again succeeds and leaves
the store exactly as after the first application. -/
theorem upsert_idempotent_nonnull_ids (s : Store) (name : String) (data : Frame)
    (t : Table) (s1 : Store)
    (hf : findTable s name = some t)
    (huniq : t.idUnique = true)
    (hid : "id" ∈ colNames t.schema)
    (hds : IdsOk (tableIds t.schema t.rows))
    (hnn : ∀ bv ∈ data.rows, rowId (colNames data.cols) bv ≠ Value.null)
    (hok : upsert_batch s name data = .ok s1) :
    upsert_batch s1 name data = .ok s1 := by
  obtain ⟨t₀, hf₀, hbc, hcols, hcon, hs1⟩ := upsert_batch_ok_inv s name data s1 hok
  rw [hf] at hf₀
  injection hf₀ with hf₀
  subst hf₀
  by_cases hfil : (colNames data.cols).filter (fun c => c ≠ "id") = []
  · -- insert-or-ignore path
    have hisE : ((colNames data.cols).filter (fun c => c ≠ "id")).isEmpty = true := by
      rw [hfil]; rfl
    rw [hisE, huniq,
      foldl_upsert_ignore t.schema (colNames data.cols) hid data.rows t.rows] at hs1
    subst hs1
    have hall : ∀ bv ∈ data.rows, rowId (colNames data.cols) bv ≠ Value.null ∧
        rowId (colNames data.cols) bv ∈ tableIds t.schema
          (t.rows ++ (firstOccs (colNames data.cols) (tableIds t.schema t.rows)
            data.rows).map (fun bv => mkRow ((colNames data.cols).zip bv) t.schema)) := by
      intro bv hbv
      refine ⟨hnn bv hbv, ?_⟩
      rw [tableIds_ignore_result t.schema (colNames data.cols) t.rows data.rows hid]
      by_cases hseen : rowId (colNames data.cols) bv ∈ tableIds t.schema t.rows
      · exact List.mem_append.2 (Or.inl hseen)
      · exact List.mem_append.2
          (Or.inr ((mem_map_firstOccs _ _ (hnn bv hbv) data.rows _).2
            ⟨hseen, List.mem_map_of_mem _ hbv⟩))
    unfold upsert_batch
    rw [findTable_setTable_self s name _]
    dsimp only
    rw [if_neg hbc, if_neg (not_not_intro hcols),
      if_neg (fun hc => by simp [huniq] at hc), hisE,
      foldl_upsert_ignore t.schema (colNames data.cols) hid data.rows _,
      firstOccs_all_seen _ _ _ hall, List.map_nil, List.append_nil,
      setTable_setTable]
  · -- on-conflict-do-update path
    have hisE : ((colNames data.cols).filter (fun c => c ≠ "id")).isEmpty = false := by
      cases hfe : (colNames data.cols).filter (fun c => c ≠ "id") with
      | nil => exact absurd hfe hfil
      | cons a l => rfl
    rw [hisE, huniq,
      foldl_upsert_update t.schema (colNames data.cols) hid data.rows t.rows hds] at hs1
    subst hs1
    unfold upsert_batch
    rw [findTable_setTable_self s name _]
    dsimp only
    rw [if_neg hbc, if_neg (not_not_intro hcols),
      if_neg (fun hc => by simp [huniq] at hc), hisE,
      foldl_upsert_update t.schema (colNames data.cols) hid data.rows _
        (idsOk_upsertSpecRows t.schema (colNames data.cols) data.rows t.rows hid hds),
      upsertSpecRows_idem t.schema (colNames data.cols) data.rows t.rows hid hnn,
      setTable_setTable]

/-- Counterexample to C4 as stated: a batch whose row carries a NULL
`id` (against a uniquely-constrained table) inserts again on the second
application — the final row set differs. -/
theorem upsert_not_idempotent_on_null_id :
    upsert_batch nullIdStore "t" nullIdFrame = .ok nullIdStore1 ∧
    upsert_batch nullIdStore1 "t" nullIdFrame = .ok nullIdStore2 ∧
    nullIdStore2 ≠ nullIdStore1 := by decide

/-- Witness for C4 at the spec's example batch applied twice. -/
theorem upsert_idempotent_nonnull_ids_witness :
    upsert_batch egStoreAfter "T" egFrame = .ok egStoreAfter :=
  upsert_idempotent_nonnull_ids egStore "T" egFrame egTable egStoreAfter
    (by decide) (by decide) (by decide) (by decide) (by decide) (by decide)

end AirtableLogger
